import Mathlib

/-!
Verification of the SocialFlow scheduling core.

This file gives a shallow embedding of the orchestration core of the
SocialFlow repository (server/services/time.ts, scheduler.ts, rss.ts,
pipeline.ts and the post-update route of server/routes.ts) and proves or
refutes the frozen specification claims about it.

Instants are modelled as integers counting milliseconds since the Unix
epoch, matching Date.getTime in the source.  Post status values are kept
as strings, matching the string literals of the source.  External
collaborators (the cron-parser library, the Intl timezone database, feed
retrieval, caption generation, image search, the publishing transport,
and the durable storage module, which is not among the sources) are
modelled as explicit parameters or as definitions whose doc comments say
what they stand for.
-/

namespace SocialFlow

/-! ## Calendar arithmetic

Helper for building concrete instants.  This is the standard
days-from-civil algorithm; it is only ever applied to years after 1970,
where integer floor division agrees with the truncating division of the
usual formulation. -/

/-- Days since 1970-01-01 of the civil date y-m-d (valid for y after 400). -/
def daysFromCivil (y m d : Int) : Int :=
  let yy := if m ≤ 2 then y - 1 else y
  let era := yy.ediv 400
  let yoe := yy - era * 400
  let mp := if m > 2 then m - 3 else m + 9
  let doy := (153 * mp + 2).ediv 5 + d - 1
  let doe := yoe * 365 + yoe.ediv 4 - yoe.ediv 100 + doy
  era * 146097 + doe - 719468

def msPerMinute : Int := 60000

def msPerDay : Int := 86400000

/-- Milliseconds since the Unix epoch of the UTC instant y-m-d h:mi. -/
def mkUtcMs (y m d h mi : Int) : Int :=
  daysFromCivil y m d * msPerDay + h * 3600000 + mi * msPerMinute

/-! ## Timezone model

Modelled from the IANA timezone database used by the Intl library and by
cron-parser, which are external to the repository: the
America/Los_Angeles zone is UTC-8 (PST) outside daylight saving time and
UTC-7 (PDT) inside it.  The daylight saving intervals are listed
explicitly, as UTC instants, for the years the proofs touch. -/

/-- The US daylight saving intervals of America/Los_Angeles for 2024-2027,
as half-open UTC millisecond intervals.  DST starts at 02:00 local PST
(10:00 UTC) on the second Sunday of March and ends at 02:00 local PDT
(09:00 UTC) on the first Sunday of November. -/
def laDstIntervals : List (Int × Int) :=
  [ (mkUtcMs 2024 3 10 10 0, mkUtcMs 2024 11 3 9 0),
    (mkUtcMs 2025 3 9 10 0, mkUtcMs 2025 11 2 9 0),
    (mkUtcMs 2026 3 8 10 0, mkUtcMs 2026 11 1 9 0),
    (mkUtcMs 2027 3 14 10 0, mkUtcMs 2027 11 7 9 0) ]

/-- Whether the UTC instant t falls in daylight saving time of
America/Los_Angeles. -/
def inLaDst (t : Int) : Bool :=
  laDstIntervals.any (fun iv => iv.1 ≤ t && t < iv.2)

/-- Offset, in minutes, added to a UTC instant to obtain local wall-clock
time in the given zone.  Modelled for the zones the claims exercise:
America/Los_Angeles (DST aware) and UTC. -/
def tzOffsetMinutes (tz : String) (t : Int) : Int :=
  if tz = "America/Los_Angeles" then (if inLaDst t then -420 else -480)
  else 0

/-- The wall-clock minute of the day (0 to 1439) that the UTC instant t
renders as in America/Los_Angeles. -/
def laWallMinuteOfDay (t : Int) : Int :=
  (t.ediv msPerMinute + tzOffsetMinutes "America/Los_Angeles" t).emod 1440

/-! ## Time Resolution (server/services/time.ts) -/

def DEFAULT_TIMEZONE : String := "America/Los_Angeles"

/-- Modelled from the spec: the set of timezone identifiers for which the
Intl.DateTimeFormat constructor (external to the repository) succeeds; the
model lists the identifiers the claims exercise. -/
def knownTimeZones : List String := ["America/Los_Angeles", "UTC"]

/-- resolveTimeZone of server/services/time.ts: an absent or falsy value or
an identifier the Intl constructor rejects falls back to the default
zone; otherwise the identifier is returned unchanged. -/
def resolveTimeZone (tz : Option String) : String :=
  match tz with
  | none => DEFAULT_TIMEZONE
  | some z => if z = "" then DEFAULT_TIMEZONE
              else if knownTimeZones.contains z then z else DEFAULT_TIMEZONE

/-! ## Cron evaluation

Modelled from the cron-parser library (external to the repository), for
the subset of five-field expressions the claims exercise: a literal
minute, a literal hour, and wildcards in the three date fields.
CronExpressionParser.parse with a tz option evaluates the expression
against wall-clock time in that zone; next() returns the first matching
minute boundary strictly after the current instant. -/

structure CronExpr where
  minuteField : Nat
  hourField : Nat
deriving Repr, DecidableEq

/-- Splitting on single spaces, keeping empty pieces: the behaviour of
the splitOn the library applies to the expression (written out over the
character list so that proofs can evaluate it). -/
def splitSpacesAux : List Char → List Char → List String
  | [], cur => [String.mk cur.reverse]
  | ch :: rest, cur =>
    if ch == ' ' then String.mk cur.reverse :: splitSpacesAux rest []
    else splitSpacesAux rest (ch :: cur)

def splitSpaces (s : String) : List String := splitSpacesAux s.toList []

/-- Decimal parse of a cron field (written out over the character list
so that proofs can evaluate it); none on an empty or non-numeric
field. -/
def fieldToNatAux : List Char → Option Nat → Option Nat
  | [], acc => acc
  | ch :: rest, acc =>
    if ch.isDigit then fieldToNatAux rest (some (acc.getD 0 * 10 + (ch.toNat - 48)))
    else none

def fieldToNat (f : String) : Option Nat := fieldToNatAux f.toList none

def parseCron (s : String) : Option CronExpr :=
  match splitSpaces s with
  | [mi, h, dom, mon, dow] =>
    if dom = "*" && mon = "*" && dow = "*" then
      match fieldToNat mi, fieldToNat h with
      | some m, some hh => if m < 60 && hh < 24 then some ⟨m, hh⟩ else none
      | _, _ => none
    else none
  | _ => none

/-- Whether the minute boundary with index tMin (minutes since the epoch)
matches the expression when rendered in the given zone. -/
def cronMatchesAt (e : CronExpr) (tz : String) (tMin : Int) : Bool :=
  let localMin := tMin + tzOffsetMinutes tz (tMin * msPerMinute)
  let minuteOfDay := localMin.emod 1440
  minuteOfDay.emod 60 == (e.minuteField : Int) &&
    minuteOfDay.ediv 60 == (e.hourField : Int)

/-- Bounded linear search for the first integer from t on that satisfies
the predicate. -/
def searchNext (p : Int → Bool) : Nat → Int → Option Int
  | 0, _ => none
  | fuel + 1, t => if p t then some t else searchNext p fuel (t + 1)

/-- Two days of minutes: enough fuel for any daily expression. -/
def CRON_SEARCH_FUEL : Nat := 2880

/-- The next fire instant (ms) of the expression in the given zone,
strictly after nowMs. -/
def cronNextMs (e : CronExpr) (tz : String) (nowMs : Int) : Option Int :=
  (searchNext (cronMatchesAt e tz) CRON_SEARCH_FUEL (nowMs.ediv msPerMinute + 1)).map
    (fun m => m * msPerMinute)

/-! ## Data model (shared/schema)

The Campaign and Post records, restricted to the attributes the
scheduling core reads or writes.  Status values are the string literals
of the source. -/

structure Campaign where
  id : Nat
  name : String
  rssUrls : List String
  scheduleCron : Option String
  scheduleTimezone : Option String
  autoPublish : Bool
  isActive : Bool
  lastRssFetchAt : Option Int
deriving Repr, DecidableEq

structure Post where
  id : Nat
  campaignId : Nat
  sourceTitle : String
  sourceUrl : String
  sourceGuid : String
  sourceSnippet : String
  pubDate : Option Int
  imageUrl : Option String
  imageCredit : Option String
  imageSearchPhrase : Option String
  status : String
  scheduledFor : Option Int
  generatedCaption : Option String
  aiModel : Option String
  createdAt : Int
  postedAt : Option Int
  retryCount : Nat
  failureReason : Option String
deriving Repr, DecidableEq

structure LogEntry where
  campaignId : Nat
  postId : Option Nat
  level : String
  message : String
deriving Repr, DecidableEq

/-- A partial update of a post, as passed to storage.updatePost: a field
that is none is left unchanged, a field that is some v is overwritten
with v. -/
structure PostUpdate where
  status : Option String := none
  scheduledFor : Option (Option Int) := none
  generatedCaption : Option (Option String) := none
  imageUrl : Option (Option String) := none
  imageCredit : Option (Option String) := none
  imageSearchPhrase : Option (Option String) := none
  aiModel : Option (Option String) := none
  postedAt : Option (Option Int) := none
  retryCount : Option Nat := none
  failureReason : Option (Option String) := none
deriving Repr, DecidableEq

def applyPostUpdate (p : Post) (u : PostUpdate) : Post :=
  { p with
    status := u.status.getD p.status
    scheduledFor := u.scheduledFor.getD p.scheduledFor
    generatedCaption := u.generatedCaption.getD p.generatedCaption
    imageUrl := u.imageUrl.getD p.imageUrl
    imageCredit := u.imageCredit.getD p.imageCredit
    imageSearchPhrase := u.imageSearchPhrase.getD p.imageSearchPhrase
    aiModel := u.aiModel.getD p.aiModel
    postedAt := u.postedAt.getD p.postedAt
    retryCount := u.retryCount.getD p.retryCount
    failureReason := u.failureReason.getD p.failureReason }

/-! ## Storage

Modelled from the spec: the durable storage module (server/storage.ts is
not among the sources) offers CRUD operations over campaigns, posts and
logs with the query shapes the core uses.  Row limits and user scoping of
the real queries are omitted: the model returns all matching rows of the
single tenant. -/

structure Storage where
  campaigns : List Campaign
  posts : List Post
  logs : List LogEntry
  nextPostId : Nat
deriving Repr, DecidableEq

def Storage.getActiveCampaigns (s : Storage) : List Campaign :=
  s.campaigns.filter (fun c => c.isActive)

def Storage.getCampaign (s : Storage) (cid : Nat) : Option Campaign :=
  s.campaigns.find? (fun c => c.id == cid)

def Storage.getPostsByCampaign (s : Storage) (cid : Nat) : List Post :=
  s.posts.filter (fun p => p.campaignId == cid)

def Storage.getPost (s : Storage) (pid : Nat) : Option Post :=
  s.posts.find? (fun p => p.id == pid)

def Storage.updatePost (s : Storage) (pid : Nat) (u : PostUpdate) : Storage :=
  { s with posts := s.posts.map (fun p => if p.id == pid then applyPostUpdate p u else p) }

def Storage.updateCampaignLastRssFetchAt (s : Storage) (cid : Nat) (t : Int) : Storage :=
  let f := fun (c : Campaign) => if c.id == cid then { c with lastRssFetchAt := some t } else c
  { s with campaigns := s.campaigns.map f }

def Storage.createLog (s : Storage) (l : LogEntry) : Storage :=
  { s with logs := s.logs ++ [l] }

/-- The fields of an insertPost row the ingestion paths supply; the
record is completed with database defaults (status draft unless given,
fresh id, creation timestamp). -/
structure InsertPost where
  campaignId : Nat
  sourceTitle : String
  sourceUrl : String
  sourceGuid : String
  sourceSnippet : String
  pubDate : Option Int
  imageUrl : Option String
  status : String
  scheduledFor : Option Int
deriving Repr, DecidableEq

def Storage.createPost (s : Storage) (ins : InsertPost) (now : Int) : Storage × Post :=
  let p : Post :=
    { id := s.nextPostId
      campaignId := ins.campaignId
      sourceTitle := ins.sourceTitle
      sourceUrl := ins.sourceUrl
      sourceGuid := ins.sourceGuid
      sourceSnippet := ins.sourceSnippet
      pubDate := ins.pubDate
      imageUrl := ins.imageUrl
      imageCredit := none
      imageSearchPhrase := none
      status := ins.status
      scheduledFor := ins.scheduledFor
      generatedCaption := none
      aiModel := none
      createdAt := now
      postedAt := none
      retryCount := 0
      failureReason := none }
  ({ s with posts := s.posts ++ [p], nextPostId := s.nextPostId + 1 }, p)

/-- Modelled from the spec and the repository documentation: per-campaign
source de-duplication finds an existing post matching the GUID, the
source URL or the title. -/
def Storage.getPostBySourceMatch (s : Storage) (cid : Nat)
    (guid url title : String) : Option Post :=
  s.posts.find? (fun p => p.campaignId == cid &&
    (p.sourceGuid == guid || p.sourceUrl == url || p.sourceTitle == title))

/-- Modelled from the spec: web-wide duplicate image lookup by URL. -/
def Storage.getPostByImageUrl (s : Storage) (url : String) : Option Post :=
  s.posts.find? (fun p => p.imageUrl == some url)

/-- Modelled from the spec: deletes posted posts whose postedAt is more
than the given number of days before now; returns the survivors. -/
def Storage.deleteOldPublishedPosts (s : Storage) (days : Nat) (now : Int) : Storage :=
  let cutoff := now - (days : Int) * msPerDay
  let keep := fun (p : Post) => !(p.status == "posted" && p.postedAt.getD now < cutoff)
  { s with posts := s.posts.filter keep }

/-- Modelled from its call site in runSchedulerCycle (the storage module
is not among the sources): deletes draft posts created more than the
given number of days before now. -/
def Storage.deleteOldDrafts (s : Storage) (days : Nat) (now : Int) : Storage :=
  let cutoff := now - (days : Int) * msPerDay
  let keep := fun (p : Post) => !(p.status == "draft" && p.createdAt < cutoff)
  { s with posts := s.posts.filter keep }

/-! ## External collaborators

A single environment record carries the results of every external call
of one cycle: relevance checking, caption generation and its safety
validation, image search, the publishing transport, the audit-sheet
export and feed retrieval.  Post ids and attempt numbers index the
results so distinct calls may differ. -/

structure Article where
  title : String
  link : String
  guid : String
  snippet : String
  pubDate : Option Int
  imageUrl : Option String
deriving Repr, DecidableEq

/-- The result of one generateCaption call together with the outcome of
validateContent on its caption. -/
structure CaptionResult where
  caption : String
  imageSearchPhrase : String
  imageFallbackConcepts : List String
  valid : Bool
deriving Repr, DecidableEq

structure Env where
  relevant : Nat → Bool
  relevanceReason : Nat → String
  captionAttempt : Nat → Nat → CaptionResult
  imageAttempt : Nat → Nat → Option (String × String)
  fallbackImage : Nat → Option (String × String)
  transport : Nat → Nat → Option String
  sheetsError : Option String
  aiModel : String
  feeds : String → Except String (List Article)

def MAX_RETRIES : Nat := 3

/-! ## Content pipeline (server/services/pipeline.ts) -/

/-- The caption generation loop of processNewPost: up to MAX_RETRIES
attempts, stopping at the first safety-valid caption; a warning log is
written after a failed attempt when more attempts remain.  The first
argument counts attempts made so far plus one, the second the attempts
still allowed. -/
def captionLoop (env : Env) (c : Campaign) (p : Post) :
    Nat → Nat → Storage → Storage × CaptionResult
  | attempt, 0, s => (s, env.captionAttempt p.id attempt)
  | attempt, remaining + 1, s =>
    let r := env.captionAttempt p.id attempt
    if r.valid then (s, r)
    else if remaining > 0 then
      let s := s.createLog
        { campaignId := c.id, postId := some p.id, level := "warning",
          message := "Caption failed safety check, regenerating" }
      captionLoop env c p (attempt + 1) remaining s
    else (s, r)

/-- The image search loop of processNewPost: up to MAX_RETRIES attempts;
a hit that duplicates an image already stored web-wide is rejected and
the loop continues; a miss with attempts remaining logs a warning. -/
def imageLoop (env : Env) (c : Campaign) (p : Post) :
    Nat → Nat → Storage → Storage × Option (String × String)
  | _, 0, s => (s, none)
  | attempt, remaining + 1, s =>
    match env.imageAttempt p.id attempt with
    | some (url, credit) =>
      if (s.getPostByImageUrl url).isNone then (s, some (url, credit))
      else imageLoop env c p (attempt + 1) remaining s
    | none =>
      if remaining > 0 then
        let s := s.createLog
          { campaignId := c.id, postId := some p.id, level := "warning",
            message := "Image search failed or returned duplicates, retrying" }
        imageLoop env c p (attempt + 1) remaining s
      else (s, none)

/-- The fallback-concept image search of processNewPost, tried when the
main loop found nothing and fallback concepts exist. -/
def imageFallback (env : Env) (c : Campaign) (p : Post) (concepts : List String)
    (found : Option (String × String)) (s : Storage) : Storage × Option (String × String) :=
  match found with
  | some r => (s, some r)
  | none =>
    if concepts.isEmpty then (s, none)
    else
      match env.fallbackImage p.id with
      | none => (s, none)
      | some (url, credit) =>
        if (s.getPostByImageUrl url).isNone then
          let s := s.createLog
            { campaignId := c.id, postId := some p.id, level := "info",
              message := "Image found using fallback concepts" }
          (s, some (url, credit))
        else (s, none)

/-- The relevance-rejection block of processNewPost: mark the post
failed with the captured reason, log a warning, rethrow the
RelevanceError. -/
def pnpRelevanceFail (env : Env) (post : Post) (c : Campaign) (s : Storage) :
    Storage × Except String Unit :=
  let failReason := "Article not relevant for educational content: " ++ env.relevanceReason post.id
  let s := s.updatePost post.id
    { status := some "failed", failureReason := some (some failReason) }
  let s := s.createLog
    { campaignId := c.id, postId := some post.id, level := "warning",
      message := "Article failed relevance check" }
  (s, Except.error failReason)

/-- The catch block of processNewPost as reached through an exhausted
caption loop: mark the post failed, bump retryCount, log an error,
rethrow. -/
def pnpCaptionFail (post : Post) (c : Campaign) (s : Storage) :
    Storage × Except String Unit :=
  let msg := "Caption failed safety validation after 3 attempts"
  let s := s.updatePost post.id
    { status := some "failed", failureReason := some (some msg),
      retryCount := some (post.retryCount + 1) }
  let s := s.createLog
    { campaignId := c.id, postId := some post.id, level := "error",
      message := "Content generation failed" }
  (s, Except.error msg)

/-- The auto-schedule decision of processNewPost: the new status and the
stored scheduledFor are scheduled-with-target exactly when the campaign
is active, auto-publish is on and an explicit target was supplied by the
caller; draft-with-null otherwise. -/
def pnpTargetDecision (c : Campaign) (target : Option Int) : String × Option Int :=
  if c.isActive && c.autoPublish && target.isSome then ("scheduled", target)
  else ("draft", none)

/-- The tail of processNewPost after a safety-valid caption: image
search with fallback, then the single update that stores the enrichment
and applies the auto-schedule decision, plus the auto-approval log. -/
def pnpFinish (env : Env) (post : Post) (c : Campaign) (target : Option Int)
    (cap : CaptionResult) (s : Storage) : Storage × Except String Unit :=
  let imOut := imageLoop env c post 1 MAX_RETRIES s
  let fbOut := imageFallback env c post cap.imageFallbackConcepts imOut.snd imOut.fst
  let s := fbOut.fst
  let image := fbOut.snd
  let dec := pnpTargetDecision c target
  let s := s.updatePost post.id
    { generatedCaption := some (some cap.caption)
      imageUrl := some (image.map Prod.fst)
      imageCredit := some (image.map Prod.snd)
      imageSearchPhrase := some (if cap.imageSearchPhrase == "" then none else some cap.imageSearchPhrase)
      status := some dec.fst
      scheduledFor := some dec.snd
      aiModel := some (some env.aiModel) }
  let s := if dec.snd.isSome then
      s.createLog
        { campaignId := c.id, postId := some post.id, level := "info",
          message := "Post auto-approved and scheduled" }
    else s
  (s, Except.ok ())

/-- processNewPost of server/services/pipeline.ts.  A relevance rejection
marks the post failed and rethrows; a caption that never passes safety
(or is empty) lands in the catch block, marking the post failed with an
incremented retryCount; otherwise the post is enriched and finishes
scheduled exactly when the campaign is active, auto-publishing and an
explicit target instant was passed, and draft otherwise. -/
def processNewPost (env : Env) (post : Post) (c : Campaign)
    (target : Option Int) (s : Storage) : Storage × Except String Unit :=
  if !(env.relevant post.id) then pnpRelevanceFail env post c s
  else
    let s := s.createLog
      { campaignId := c.id, postId := some post.id, level := "info",
        message := "Article passed relevance check" }
    let capOut := captionLoop env c post 1 MAX_RETRIES s
    let cap := capOut.snd
    if !cap.valid || cap.caption == "" then pnpCaptionFail post c capOut.fst
    else pnpFinish env post c target cap capOut.fst

/-! ## Publish execution (server/services/pipeline.ts, publishPost) -/

/-- Models the or-with-default of the source: a missing or empty last
error string falls back to the fixed message. -/
def jsOrDefault (o : Option String) (d : String) : String :=
  match o with
  | none => d
  | some e => if e = "" then d else e

deriving instance DecidableEq for Except

structure PublishOutcome where
  storage : Storage
  result : Except String Unit
  attempts : Nat
  waitsMs : List Int
deriving DecidableEq

/-- The retry-exhausted tail of publishPost: mark the post failed with
the last transport error and the attempt count, log an error, rethrow. -/
def publishFailure (post : Post) (c : Campaign) (lastError : Option String)
    (attempts : Nat) (waits : List Int) (s : Storage) : PublishOutcome :=
  let reason := jsOrDefault lastError "Max retries exceeded"
  let s := s.updatePost post.id
    { status := some "failed", failureReason := some (some reason),
      retryCount := some attempts }
  let s := s.createLog
    { campaignId := c.id, postId := some post.id, level := "error",
      message := "Post failed after 3 attempts" }
  { storage := s, result := Except.error ("Publishing failed after 3 attempts: " ++ reason),
    attempts := attempts, waitsMs := waits }

/-- The success tail of publishPost: transition to posted, stamp
postedAt, log, then best-effort audit-sheet export whose failure only
logs a warning. -/
def publishSuccess (env : Env) (now : Int) (post : Post) (c : Campaign)
    (attempts : Nat) (waits : List Int) (s : Storage) : PublishOutcome :=
  let s := s.updatePost post.id { status := some "posted", postedAt := some (some now) }
  let s := s.createLog
    { campaignId := c.id, postId := some post.id, level := "info",
      message := "Post published successfully" }
  let s :=
    match env.sheetsError with
    | none => s.createLog
      { campaignId := c.id, postId := some post.id, level := "info",
        message := "Google Sheets log entry created" }
    | some _ => s.createLog
      { campaignId := c.id, postId := some post.id, level := "warning",
        message := "Google Sheets logging failed" }
  { storage := s, result := Except.ok (), attempts := attempts, waitsMs := waits }

/-- The delivery loop of publishPost: while attempts remain, call the
transport; on failure with attempts left, log a warning and wait
5000 times the attempt number milliseconds (the waits are recorded in
the outcome). -/
def publishLoop (env : Env) (now : Int) (post : Post) (c : Campaign) :
    Nat → Nat → Option String → List Int → Storage → PublishOutcome
  | attempts, 0, lastError, waits, s => publishFailure post c lastError attempts waits s
  | attempts, remaining + 1, _lastError, waits, s =>
    let attempt := attempts + 1
    match env.transport post.id attempt with
    | none => publishSuccess env now post c attempt waits s
    | some e =>
      if remaining > 0 then
        let s := s.createLog
          { campaignId := c.id, postId := some post.id, level := "warning",
            message := "Publish failed, retrying" }
        publishLoop env now post c attempt remaining (some e) (waits ++ [5000 * (attempt : Int)]) s
      else publishFailure post c (some e) attempt waits s

/-- publishPost of server/services/pipeline.ts.  The captionOverride
parameter of the source is omitted: the scheduling core never passes
it.  A post without a caption throws before any delivery attempt. -/
def publishPost (env : Env) (now : Int) (post : Post) (c : Campaign)
    (s : Storage) : PublishOutcome :=
  if post.generatedCaption.getD "" == "" then
    { storage := s, result := Except.error "Post has no caption to publish",
      attempts := 0, waitsMs := [] }
  else publishLoop env now post c 0 MAX_RETRIES none [] s

/-! ## Publish pass (server/services/pipeline.ts, publishScheduledPosts) -/

/-- The running state of one publish pass.  The attemptedIds field is
proof instrumentation only: it records the posts for which publishPost
was invoked and influences no decision of the pass. -/
structure PassState where
  storage : Storage
  published : Nat
  failed : Nat
  publishedIds : List Nat
  attemptedIds : List Nat
deriving DecidableEq

/-- Whether a post is a due candidate: scheduled with a scheduledFor not
after now. -/
def duePost (now : Int) (p : Post) : Bool :=
  p.status == "scheduled" &&
    (match p.scheduledFor with
     | none => false
     | some t => decide (t ≤ now))

/-- The inner loop of publishScheduledPosts over one campaign's due
candidates: skip ids already published this cycle, re-fetch each post
and skip it unless its status is still scheduled, then attempt delivery;
only a successful delivery records the id in publishedIds. -/
def runCandidates (env : Env) (now : Int) (c : Campaign) :
    List Post → PassState → PassState
  | [], st => st
  | p :: rest, st =>
    if st.publishedIds.contains p.id then runCandidates env now c rest st
    else
      match st.storage.getPost p.id with
      | none => runCandidates env now c rest st
      | some current =>
        if current.status != "scheduled" then runCandidates env now c rest st
        else
          let out := publishPost env now p c st.storage
          match out.result with
          | Except.ok _ =>
            runCandidates env now c rest
              { storage := out.storage, published := st.published + 1, failed := st.failed,
                publishedIds := st.publishedIds ++ [p.id],
                attemptedIds := st.attemptedIds ++ [p.id] }
          | Except.error _ =>
            runCandidates env now c rest
              { storage := out.storage, published := st.published, failed := st.failed + 1,
                publishedIds := st.publishedIds,
                attemptedIds := st.attemptedIds ++ [p.id] }

/-- The outer loop of publishScheduledPosts: per campaign, collect due
scheduled posts from current storage and run the candidate loop. -/
def runCampaigns (env : Env) (now : Int) : List Campaign → PassState → PassState
  | [], st => st
  | c :: rest, st =>
    let candidates := (st.storage.getPostsByCampaign c.id).filter (duePost now)
    runCampaigns env now rest (runCandidates env now c candidates st)

/-- publishScheduledPosts of server/services/pipeline.ts. -/
def publishScheduledPosts (env : Env) (now : Int) (s : Storage) : PassState :=
  runCampaigns env now s.getActiveCampaigns
    { storage := s, published := 0, failed := 0, publishedIds := [], attemptedIds := [] }

/-! ## Feed ingestion (server/services/rss.ts) -/

/-- The result record of processCampaignFeeds, exactly as the source
builds it: counters and errors only. -/
structure FeedResult where
  fetched : Nat := 0
  new : Nat := 0
  errors : List String := []
deriving Repr, DecidableEq

/-- The articles property that checkAndScheduleNextPost (and the
repository test script) read from the result of processCampaignFeeds.
The source never sets such a field on the record it returns, so in
JavaScript the read yields undefined; the model renders the absent
field as none. -/
def FeedResult.articles (_ : FeedResult) : Option (List Article) := none

/-- The per-article inner loop of processCampaignFeeds: de-duplicate by
GUID, URL or title against current storage and create a new draft for
each unseen article. -/
def ingestArticles (cid : Nat) (now : Int) :
    List Article → Storage → FeedResult → Storage × FeedResult
  | [], s, r => (s, r)
  | a :: rest, s, r =>
    if (s.getPostBySourceMatch cid a.guid a.link a.title).isNone then
      let created := s.createPost
        { campaignId := cid, sourceTitle := a.title, sourceUrl := a.link,
          sourceGuid := a.guid, sourceSnippet := a.snippet, pubDate := a.pubDate,
          imageUrl := a.imageUrl, status := "draft", scheduledFor := none } now
      ingestArticles cid now rest created.fst { r with new := r.new + 1 }
    else ingestArticles cid now rest s r

/-- The per-URL loop of processCampaignFeeds: blank URLs are skipped, a
feed fetch error is recorded and the loop continues, a fetched feed is
limited to 30 items and ingested. -/
def ingestUrls (env : Env) (cid : Nat) (now : Int) :
    List String → Storage → FeedResult → Storage × FeedResult
  | [], s, r => (s, r)
  | url :: rest, s, r =>
    if url.toList.all (fun ch => ch == ' ') then ingestUrls env cid now rest s r
    else
      match env.feeds url with
      | Except.error e =>
        ingestUrls env cid now rest s
          { r with errors := r.errors ++ ["Feed " ++ url ++ ": " ++ e] }
      | Except.ok articles =>
        let limited := articles.take 30
        let out := ingestArticles cid now limited s
          { r with fetched := r.fetched + limited.length }
        ingestUrls env cid now rest out.fst out.snd

/-- processCampaignFeeds of server/services/rss.ts.  The third parameter
of the source, targetScheduledTime, is accepted and never used, exactly
as in the source; every created post has status draft.  A missing
campaign throws.  When anything was fetched, lastRssFetchAt is
updated. -/
def processCampaignFeeds (env : Env) (cid : Nat) (_targetScheduledTime : Option Int)
    (now : Int) (s : Storage) : Storage × Except String FeedResult :=
  match s.getCampaign cid with
  | none => (s, Except.error "Campaign not found")
  | some campaign =>
    let out := ingestUrls env cid now campaign.rssUrls s {}
    let r := out.snd
    let s1 := if r.fetched > 0 then out.fst.updateCampaignLastRssFetchAt cid now else out.fst
    (s1, Except.ok r)

/-! ## Slot calculation and draft selection (server/services/scheduler.ts) -/

/-- getNextScheduledTime of server/services/scheduler.ts: a campaign
without a recurrence yields none; the recurrence is parsed under the
campaign's resolved timezone; a parse failure is caught and yields
none. -/
def getNextScheduledTime (c : Campaign) (nowMs : Int) : Option Int :=
  if c.scheduleCron.getD "" == "" then none
  else
    let tz := resolveTimeZone c.scheduleTimezone
    match parseCron (c.scheduleCron.getD "") with
    | none => none
    | some e => cronNextMs e tz nowMs

/-- The descending sort by createdAt followed by taking the first
element, as done twice in checkAndScheduleNextPost: the newest post, an
earlier list position winning ties (the sort is stable). -/
def pickNewest : List Post → Option Post
  | [] => none
  | p :: ps =>
    match pickNewest ps with
    | none => some p
    | some q => if q.createdAt > p.createdAt then some q else some p

/-- checkAndScheduleNextPost of server/services/scheduler.ts.  The
comparisons of fractional minutes in the source are rendered as the
equivalent exact millisecond comparisons: timeUntilNext over 120 minutes
is next - now over 7200000 ms, under -60 minutes is below -3600000 ms,
and a time difference under 30 minutes is an absolute millisecond
difference under 1800000. -/
def checkAndScheduleNextPost (env : Env) (now : Int) (c : Campaign)
    (s : Storage) : Storage × Bool :=
  match getNextScheduledTime c now with
  | none => (s, false)
  | some next =>
    if next - now > 120 * msPerMinute || next - now < -60 * msPerMinute then (s, false)
    else
      let allPosts := s.getPostsByCampaign c.id
      let hasScheduledPost := allPosts.any (fun p =>
        p.status == "scheduled" &&
          (match p.scheduledFor with
           | none => false
           | some t => decide ((t - next).natAbs < 1800000)))
      if hasScheduledPost then (s, false)
      else
        let hasRecentlyPublished := allPosts.any (fun p =>
          p.status == "posted" &&
            (match p.postedAt with
             | none => false
             | some t => decide ((t - next).natAbs < 1800000)))
        if hasRecentlyPublished then (s, false)
        else
          let currentPosts := s.getPostsByCampaign c.id
          let draftsWithCaption := currentPosts.filter (fun p =>
            p.status == "draft" && p.generatedCaption.getD "" != "")
          match pickNewest draftsWithCaption with
          | some newestDraft =>
            let s := s.updatePost newestDraft.id
              { status := some "scheduled", scheduledFor := some (some next) }
            let s := s.createLog
              { campaignId := c.id, postId := some newestDraft.id, level := "info",
                message := "Draft scheduled" }
            (s, true)
          | none =>
            let unprocessedDrafts := currentPosts.filter (fun p =>
              p.status == "draft" && p.generatedCaption.getD "" == "")
            match pickNewest unprocessedDrafts with
            | some newestUnprocessed =>
              match processNewPost env newestUnprocessed c (some next) s with
              | (s1, Except.ok _) => (s1, true)
              | (s1, Except.error _) => (s1, false)
            | none =>
              match processCampaignFeeds env c.id (some next) now s with
              | (s1, Except.error _) => (s1, false)
              | (s1, Except.ok rssResult) =>
                if rssResult.new > 0 && rssResult.articles.isSome &&
                    !(rssResult.articles.getD []).isEmpty then
                  match rssResult.articles.getD [] with
                  | [] => (s1, false)
                  | newestArticle :: _ =>
                    let created := s1.createPost
                      { campaignId := c.id, sourceTitle := newestArticle.title,
                        sourceUrl := newestArticle.link, sourceGuid := newestArticle.guid,
                        sourceSnippet := newestArticle.snippet,
                        pubDate := newestArticle.pubDate, imageUrl := newestArticle.imageUrl,
                        status := "scheduled", scheduledFor := some next } now
                    match processNewPost env created.snd c (some next) created.fst with
                    | (s2, Except.ok _) => (s2, true)
                    | (s2, Except.error _) => (s2, false)
                else (s1, false)

/-- shouldRunRSSFetch of server/services/scheduler.ts: fetch when the
last fetch is at least 180 minutes old (or never happened), or when the
campaign has no draft at all. -/
def shouldRunRSSFetch (c : Campaign) (now : Int) (s : Storage) : Bool :=
  match c.lastRssFetchAt with
  | none => true
  | some last =>
    if decide (180 * msPerMinute ≤ now - last) then true
    else !((s.getPostsByCampaign c.id).any (fun p => p.status == "draft"))

/-! ## Preparation pass (server/services/pipeline.ts, processNextPosts) -/

/-- The candidate filter of processNextPosts: approved or scheduled
posts without a caption; a scheduled post with a scheduledFor must fall
before the window end. -/
def prepFilter (windowEnd : Int) (p : Post) : Bool :=
  if p.status != "approved" && p.status != "scheduled" then false
  else if p.generatedCaption.getD "" != "" then false
  else if p.status == "scheduled" && p.scheduledFor.isSome then
    decide (p.scheduledFor.getD 0 ≤ windowEnd)
  else true

/-- The inner loop of processNextPosts: enrichment without a schedule
target; only a successful enrichment counts as prepared. -/
def prepPosts (env : Env) (c : Campaign) :
    List Post → Nat → Storage → Storage × Nat
  | [], prepared, s => (s, prepared)
  | p :: rest, prepared, s =>
    match processNewPost env p c none s with
    | (s1, Except.ok _) => prepPosts env c rest (prepared + 1) s1
    | (s1, Except.error _) => prepPosts env c rest prepared s1

/-- The outer loop of processNextPosts: stop at the post budget, skip
auto-publish campaigns. -/
def prepCampaigns (env : Env) (now : Int) (maxPosts windowMinutes : Nat) :
    List Campaign → Nat → Storage → Storage × Nat
  | [], prepared, s => (s, prepared)
  | c :: rest, prepared, s =>
    if maxPosts ≤ prepared then (s, prepared)
    else if c.autoPublish then prepCampaigns env now maxPosts windowMinutes rest prepared s
    else
      let windowEnd := now + (windowMinutes : Int) * msPerMinute
      let needing := (s.getPostsByCampaign c.id).filter (prepFilter windowEnd)
      let toProcess := needing.take (maxPosts - prepared)
      let out := prepPosts env c toProcess prepared s
      prepCampaigns env now maxPosts windowMinutes rest out.snd out.fst

/-- processNextPosts of server/services/pipeline.ts. -/
def processNextPosts (env : Env) (now : Int) (maxPosts windowMinutes : Nat)
    (s : Storage) : Storage × Nat :=
  prepCampaigns env now maxPosts windowMinutes s.getActiveCampaigns 0 s

/-! ## Cycle controller (server/services/scheduler.ts) -/

/-- The mutable module state of the scheduler.  The ISO date string kept
in lastCleanupDate is modelled by its UTC day number: for the
nonnegative instants in play, two instants render the same
YYYY-MM-DD string exactly when they lie in the same UTC day. -/
structure SchedState where
  lastCleanupDay : Option Int
  lastCycleTime : Option Int
deriving Repr, DecidableEq

def utcDay (now : Int) : Int := now.ediv msPerDay

def OLD_POST_DAYS : Nat := 30

/-- runDailyCleanup of server/services/scheduler.ts: at most once per
calendar day, delete posted posts older than 30 days. -/
def runDailyCleanup (now : Int) (st : SchedState) (s : Storage) :
    SchedState × Storage :=
  if st.lastCleanupDay == some (utcDay now) then (st, s)
  else ({ st with lastCleanupDay := some (utcDay now) },
        s.deleteOldPublishedPosts OLD_POST_DAYS now)

/-- The cleanup block at the end of runSchedulerCycle: the daily cleanup
followed by the every-cycle deletion of drafts older than 7 days. -/
def cleanupPhase (now : Int) (st : SchedState) (s : Storage) :
    SchedState × Storage :=
  let out := runDailyCleanup now st s
  (out.fst, out.snd.deleteOldDrafts 7 now)

/-- The per-campaign branch of runSchedulerCycle: auto-publish campaigns
run draft selection, manual campaigns run the ingestion gating rule and,
when it fires, a feed fetch followed by a lastRssFetchAt update; a fetch
error is caught and the loop continues. -/
def cycleCampaignPhase (env : Env) (now : Int) :
    List Campaign → Storage → Storage
  | [], s => s
  | c :: rest, s =>
    if c.autoPublish then
      cycleCampaignPhase env now rest (checkAndScheduleNextPost env now c s).fst
    else
      if shouldRunRSSFetch c now s then
        match processCampaignFeeds env c.id none now s with
        | (s1, Except.error _) => cycleCampaignPhase env now rest s1
        | (s1, Except.ok _) =>
          cycleCampaignPhase env now rest (s1.updateCampaignLastRssFetchAt c.id now)
      else cycleCampaignPhase env now rest s

/-- The body of runSchedulerCycle after the minimum-gap guard: the
per-campaign phase, the preparation pass, the publish pass and the
cleanup block. -/
def runSchedulerCycleBody (env : Env) (now : Int) (st : SchedState)
    (s : Storage) : SchedState × Storage :=
  let st := { st with lastCycleTime := some now }
  let s := cycleCampaignPhase env now s.getActiveCampaigns s
  let s := (processNextPosts env now 2 120 s).fst
  let s := (publishScheduledPosts env now s).storage
  cleanupPhase now st s

/-- The storage runSchedulerCycleBody hands to its cleanup block: the
result of the per-campaign phase, the preparation pass and the publish
pass. -/
def preCleanupStorage (env : Env) (now : Int) (s : Storage) : Storage :=
  (publishScheduledPosts env now
    ((processNextPosts env now 2 120
      (cycleCampaignPhase env now s.getActiveCampaigns s)).fst)).storage

/-- runSchedulerCycle of server/services/scheduler.ts: a cycle starting
less than four minutes after the previous one is skipped entirely. -/
def runSchedulerCycle (env : Env) (now : Int) (st : SchedState)
    (s : Storage) : SchedState × Storage :=
  match st.lastCycleTime with
  | some last =>
    if now - last < 4 * msPerMinute then (st, s)
    else runSchedulerCycleBody env now st s
  | none => runSchedulerCycleBody env now st s

/-! ## Post update route (server/routes.ts, the PATCH handler)

The handler validates the body into a partial update, applies it through
storage.updatePost unchanged, answers 404 when no post matched, and
otherwise logs the update.  No field beyond those in the body is
touched. -/

def patchPost (s : Storage) (pid : Nat) (u : PostUpdate) : Storage × Option Post :=
  let s1 := s.updatePost pid u
  match s1.getPost pid with
  | none => (s, none)
  | some post =>
    let s2 := s1.createLog
      { campaignId := post.campaignId, postId := some post.id, level := "info",
        message := "Post updated" }
    (s2, some post)

/-! ## Derived observations and invariants -/

/-- The status of the stored post with the given id, if any. -/
def statusOf (s : Storage) (pid : Nat) : Option String :=
  (s.getPost pid).map Post.status

/-- The owning campaign of the stored post with the given id, if any. -/
def campIdOf (s : Storage) (pid : Nat) : Option Nat :=
  (s.getPost pid).map Post.campaignId

/-- Well-formed post store: distinct post ids, and every id below the
next fresh id. -/
def WFPosts (s : Storage) : Prop :=
  (s.posts.map Post.id).Nodup ∧ ∀ p ∈ s.posts, p.id < s.nextPostId

/-- The per-post status invariant that the code maintains: a scheduled
post carries a scheduledFor, and a post is posted exactly when it
carries a postedAt. -/
def StatusInv (p : Post) : Prop :=
  (p.status = "scheduled" → p.scheduledFor ≠ none) ∧
  (p.status = "posted" ↔ p.postedAt ≠ none)

def InvAll (s : Storage) : Prop := ∀ p ∈ s.posts, StatusInv p

/-- Between two storage states, no post of the given campaign became
scheduled: every scheduled post of that campaign in the second state was
already scheduled, with the same id and campaign, in the first. -/
def NoNewSched (s0 s1 : Storage) (cid : Nat) : Prop :=
  ∀ p1 ∈ s1.posts, p1.campaignId = cid → p1.status = "scheduled" →
    ∃ p0 ∈ s0.posts, p0.id = p1.id ∧ p0.campaignId = cid ∧ p0.status = "scheduled"

/-- Between two storage states, no post became posted: every posted post
of the second state corresponds to a post of the first state with the
same id that was already posted. -/
def NoNewPosted (s0 s1 : Storage) : Prop :=
  ∀ p1 ∈ s1.posts, p1.status = "posted" →
    ∃ p0 ∈ s0.posts, p0.id = p1.id ∧ p0.status = "posted"

/-- What one scheduler phase preserves, relative to the id of a manual
campaign: well-formed posts, the amended status invariant, no new
scheduled post of that campaign, and the campaign id sequence. -/
def Preserves (cid : Nat) (s0 s1 : Storage) : Prop :=
  WFPosts s1 ∧ InvAll s1 ∧ NoNewSched s0 s1 cid ∧
  s1.campaigns.map Campaign.id = s0.campaigns.map Campaign.id

/-- Between two storage states, no post was deleted: every post of the
first state still has a post with its id in the second. -/
def NoDelete (s0 s1 : Storage) : Prop :=
  ∀ p0 ∈ s0.posts, ∃ p1 ∈ s1.posts, p1.id = p0.id

/-- The second storage differs from the first at most in its log list:
posts, campaigns and the fresh-id counter agree. -/
def LogOnly (s1 s2 : Storage) : Prop :=
  s2.posts = s1.posts ∧ s2.campaigns = s1.campaigns ∧ s2.nextPostId = s1.nextPostId

/-- The two storage states carry posts with identical id and campaign
sequences (contents may differ), identical campaign lists and the same
fresh-id counter: the footprint of update-only operations. -/
def ShapeEq (s1 s2 : Storage) : Prop :=
  s2.posts.map (fun p => (p.id, p.campaignId)) = s1.posts.map (fun p => (p.id, p.campaignId)) ∧
  s2.campaigns = s1.campaigns ∧ s2.nextPostId = s1.nextPostId

/-- The inductive invariant of one publish pass, relative to the storage
the pass started from: well-formed posts, untouched campaigns, no id
attempted twice, ids recorded as published are attempted and now posted,
attempted-but-unrecorded ids are now failed or still scheduled (the
captionless throw), unattempted posts are untouched, and every attempted
id was a scheduled post of the starting storage. -/
def PassInv (s0 : Storage) (st : PassState) : Prop :=
  WFPosts st.storage ∧
  st.storage.campaigns = s0.campaigns ∧
  st.attemptedIds.Nodup ∧
  (∀ id ∈ st.publishedIds, id ∈ st.attemptedIds) ∧
  (∀ id ∈ st.publishedIds, statusOf st.storage id = some "posted") ∧
  (∀ id ∈ st.attemptedIds, id ∉ st.publishedIds →
    statusOf st.storage id = some "failed" ∨ statusOf st.storage id = some "scheduled") ∧
  (∀ id, id ∉ st.attemptedIds → st.storage.getPost id = s0.getPost id) ∧
  (∀ id ∈ st.attemptedIds, statusOf s0 id = some "scheduled") ∧
  ShapeEq s0 st.storage ∧
  (InvAll s0 → InvAll st.storage)

/-- An attempted id that is somehow still scheduled belongs to no
campaign that the pass has yet to visit, and to no candidate still
queued in the current campaign. -/
def PassInner (st : PassState) (pending : List Campaign) (K : List Post) : Prop :=
  ∀ id ∈ st.attemptedIds, statusOf st.storage id = some "scheduled" →
    (∀ cid2, campIdOf st.storage id = some cid2 → cid2 ∉ pending.map Campaign.id) ∧
    id ∉ K.map Post.id

/-! ## Concrete fixtures used by witnesses and counterexamples -/

/-- A benign environment: everything relevant, captions valid at once,
no images found, transport succeeding, empty feeds. -/
def envBase : Env :=
  { relevant := fun _ => true
    relevanceReason := fun _ => "ok"
    captionAttempt := fun _ _ =>
      { caption := "cap", imageSearchPhrase := "", imageFallbackConcepts := [], valid := true }
    imageAttempt := fun _ _ => none
    fallbackImage := fun _ => none
    transport := fun _ _ => none
    sheetsError := none
    aiModel := "m"
    feeds := fun _ => Except.ok [] }

/-- An active auto-publish campaign firing daily at 08:30 in
America/Los_Angeles. -/
def campaign1 : Campaign :=
  { id := 1, name := "c1", rssUrls := ["feedA"],
    scheduleCron := some "30 8 * * *",
    scheduleTimezone := some "America/Los_Angeles",
    autoPublish := true, isActive := true, lastRssFetchAt := none }

/-- 2026-01-15 08:30 in Los Angeles, rendered in UTC (PST, hence
16:30Z). -/
def slot1 : Int := mkUtcMs 2026 1 15 16 30

/-- Forty-five minutes before slot1: inside the two-hour lookahead. -/
def now1 : Int := slot1 - 45 * msPerMinute

def article1 : Article :=
  { title := "a1", link := "urlA1", guid := "g1", snippet := "sn",
    pubDate := none, imageUrl := none }

/-- Environment whose single feed yields one new article. -/
def env1 : Env := { envBase with feeds := fun _ => Except.ok [article1] }

/-- Storage holding campaign1 and an empty post pool. -/
def s1 : Storage := { campaigns := [campaign1], posts := [], logs := [], nextPostId := 1 }

/-- A scheduled post with a caption, due at slot1, owned by
campaign1. -/
def post7 : Post :=
  { id := 7, campaignId := 1, sourceTitle := "t", sourceUrl := "u", sourceGuid := "g",
    sourceSnippet := "sn", pubDate := none, imageUrl := none, imageCredit := none,
    imageSearchPhrase := none, status := "scheduled", scheduledFor := some slot1,
    generatedCaption := some "cap", aiModel := none, createdAt := now1,
    postedAt := none, retryCount := 0, failureReason := none }

/-- Storage holding campaign1 and the scheduled post7. -/
def s7 : Storage := { campaigns := [campaign1], posts := [post7], logs := [], nextPostId := 8 }

/-- Environment whose transport always fails with a fixed error. -/
def envFail : Env := { envBase with transport := fun _ _ => some "transport down" }

/-- A nine-day-old draft owned by campaign1. -/
def oldDraft : Post :=
  { id := 9, campaignId := 1, sourceTitle := "t", sourceUrl := "u", sourceGuid := "g",
    sourceSnippet := "sn", pubDate := none, imageUrl := none, imageCredit := none,
    imageSearchPhrase := none, status := "draft", scheduledFor := none,
    generatedCaption := none, aiModel := none, createdAt := now1 - 9 * msPerDay,
    postedAt := none, retryCount := 0, failureReason := none }

/-- Storage with no campaigns and only the old draft: a cycle does
nothing except its cleanup phase. -/
def s9 : Storage := { campaigns := [], posts := [oldDraft], logs := [], nextPostId := 10 }

/-- Scheduler state whose last cleanup already happened on the day of
now1, so only the draft cleanup acts. -/
def st9 : SchedState := { lastCleanupDay := some (utcDay now1), lastCycleTime := none }

/-- A manual (non-auto-publish) active campaign. -/
def campaignM : Campaign :=
  { id := 2, name := "m", rssUrls := [],
    scheduleCron := none, scheduleTimezone := none,
    autoPublish := false, isActive := true, lastRssFetchAt := none }

/-- Storage holding only the manual campaign and no posts. -/
def sM : Storage := { campaigns := [campaignM], posts := [], logs := [], nextPostId := 1 }

/-! # Theorems -/

/-! ## Generic facts about the bounded search -/

theorem searchNext_some {p : Int → Bool} :
    ∀ {fuel : Nat} {t0 r : Int}, searchNext p fuel t0 = some r → p r = true ∧ t0 ≤ r := by
  intro fuel
  induction fuel with
  | zero => intro t0 r h; simp [searchNext] at h
  | succ n ih =>
    intro t0 r h
    by_cases hp : p t0
    · simp [searchNext, hp] at h
      subst h
      exact ⟨hp, le_refl _⟩
    · simp [searchNext, hp] at h
      obtain ⟨hr, hle⟩ := ih h
      exact ⟨hr, le_trans (by omega) hle⟩

/-! ## Storage toolkit -/

theorem applyPostUpdate_id (p : Post) (u : PostUpdate) : (applyPostUpdate p u).id = p.id := rfl

theorem applyPostUpdate_campaignId (p : Post) (u : PostUpdate) :
    (applyPostUpdate p u).campaignId = p.campaignId := rfl

theorem posts_updatePost (s : Storage) (pid : Nat) (u : PostUpdate) :
    (s.updatePost pid u).posts =
      s.posts.map (fun p => if p.id == pid then applyPostUpdate p u else p) := rfl

theorem posts_createLog (s : Storage) (l : LogEntry) : (s.createLog l).posts = s.posts := rfl

theorem mem_updatePost_elim {s : Storage} {pid : Nat} {u : PostUpdate} {q : Post}
    (hq : q ∈ (s.updatePost pid u).posts) :
    (∃ p, p ∈ s.posts ∧ p.id = pid ∧ q = applyPostUpdate p u) ∨
      (q ∈ s.posts ∧ q.id ≠ pid) := by
  rw [posts_updatePost] at hq
  obtain ⟨p, hp, hpq⟩ := List.mem_map.mp hq
  by_cases h : p.id = pid
  · exact Or.inl ⟨p, hp, h, by rw [← hpq, if_pos (by simp [h])]⟩
  · refine Or.inr ?_
    have hqp : q = p := by rw [← hpq, if_neg (by simp [h])]
    rw [hqp]
    exact ⟨hp, h⟩

theorem updatePost_target_status {s : Storage} {pid : Nat} {u : PostUpdate} {st : String}
    (hst : u.status = some st) :
    ∀ q ∈ (s.updatePost pid u).posts, q.id = pid → q.status = st := by
  intro q hq hid
  rcases mem_updatePost_elim hq with ⟨p, _, _, hq'⟩ | ⟨_, hne⟩
  · rw [hq']
    show u.status.getD p.status = st
    rw [hst]
    rfl
  · exact absurd hid hne

theorem logOnly_refl (s : Storage) : LogOnly s s := ⟨rfl, rfl, rfl⟩

theorem logOnly_trans {s1 s2 s3 : Storage} (h12 : LogOnly s1 s2) (h23 : LogOnly s2 s3) :
    LogOnly s1 s3 :=
  ⟨h23.1.trans h12.1, h23.2.1.trans h12.2.1, h23.2.2.trans h12.2.2⟩

theorem logOnly_createLog (s : Storage) (l : LogEntry) : LogOnly s (s.createLog l) :=
  ⟨rfl, rfl, rfl⟩

theorem captionLoop_logOnly (env : Env) (c : Campaign) (p : Post) :
    ∀ (r a : Nat) (s : Storage), LogOnly s (captionLoop env c p a r s).fst := by
  intro r
  induction r with
  | zero => intro a s; exact logOnly_refl s
  | succ n ih =>
    intro a s
    show LogOnly s (captionLoop env c p a (n + 1) s).fst
    simp only [captionLoop]
    by_cases hv : (env.captionAttempt p.id a).valid
    · rw [if_pos hv]
      exact logOnly_refl s
    · rw [if_neg hv]
      by_cases hn : n > 0
      · rw [if_pos hn]
        exact logOnly_trans (logOnly_createLog s _) (ih _ _)
      · rw [if_neg hn]
        exact logOnly_refl s

theorem imageLoop_logOnly (env : Env) (c : Campaign) (p : Post) :
    ∀ (r a : Nat) (s : Storage), LogOnly s (imageLoop env c p a r s).fst := by
  intro r
  induction r with
  | zero => intro a s; exact logOnly_refl s
  | succ n ih =>
    intro a s
    show LogOnly s (imageLoop env c p a (n + 1) s).fst
    simp only [imageLoop]
    cases him : env.imageAttempt p.id a with
    | some pr =>
      obtain ⟨url, credit⟩ := pr
      dsimp only
      by_cases hdup : (s.getPostByImageUrl url).isNone
      · rw [if_pos hdup]
        exact logOnly_refl s
      · rw [if_neg hdup]
        exact ih _ _
    | none =>
      dsimp only
      by_cases hn : n > 0
      · rw [if_pos hn]
        exact logOnly_trans (logOnly_createLog s _) (ih _ _)
      · rw [if_neg hn]
        exact logOnly_refl s

theorem imageFallback_logOnly (env : Env) (c : Campaign) (p : Post)
    (concepts : List String) (found : Option (String × String)) (s : Storage) :
    LogOnly s (imageFallback env c p concepts found s).fst := by
  unfold imageFallback
  cases found with
  | some r => exact logOnly_refl s
  | none =>
    dsimp only
    by_cases hc : concepts.isEmpty
    · rw [if_pos hc]
      exact logOnly_refl s
    · rw [if_neg hc]
      cases hf : env.fallbackImage p.id with
      | none => exact logOnly_refl s
      | some pr =>
        obtain ⟨url, credit⟩ := pr
        dsimp only
        by_cases hdup : (s.getPostByImageUrl url).isNone
        · rw [if_pos hdup]
          exact logOnly_createLog s _
        · rw [if_neg hdup]
          exact logOnly_refl s

theorem updatePost_map_pairs (s : Storage) (pid : Nat) (u : PostUpdate) :
    (s.updatePost pid u).posts.map (fun p => (p.id, p.campaignId)) =
      s.posts.map (fun p => (p.id, p.campaignId)) := by
  rw [posts_updatePost, List.map_map]
  apply List.map_congr_left
  intro p _
  show ((if p.id == pid then applyPostUpdate p u else p).id,
        (if p.id == pid then applyPostUpdate p u else p).campaignId) = (p.id, p.campaignId)
  by_cases h : (p.id == pid) = true
  · rw [if_pos h]
    rfl
  · rw [if_neg h]

theorem updatePost_map_id (s : Storage) (pid : Nat) (u : PostUpdate) :
    (s.updatePost pid u).posts.map Post.id = s.posts.map Post.id := by
  rw [posts_updatePost, List.map_map]
  apply List.map_congr_left
  intro p _
  show (if p.id == pid then applyPostUpdate p u else p).id = p.id
  by_cases h : (p.id == pid) = true
  · rw [if_pos h]
    rfl
  · rw [if_neg h]

theorem wf_logOnly {s s2 : Storage} (h : LogOnly s s2) (hwf : WFPosts s) : WFPosts s2 := by
  obtain ⟨hp, _, hn⟩ := h
  constructor
  · rw [hp]
    exact hwf.1
  · intro p hpp
    rw [hp] at hpp
    rw [hn]
    exact hwf.2 p hpp

theorem wf_updatePost {s : Storage} (pid : Nat) (u : PostUpdate) (h : WFPosts s) :
    WFPosts (s.updatePost pid u) := by
  constructor
  · rw [updatePost_map_id]
    exact h.1
  · intro p hp
    rcases mem_updatePost_elim hp with ⟨q, hq, _, hpq⟩ | ⟨hq, _⟩
    · rw [hpq]
      show q.id < s.nextPostId
      exact h.2 q hq
    · exact h.2 p hq

theorem createPost_posts (s : Storage) (ins : InsertPost) (now : Int) :
    (s.createPost ins now).fst.posts = s.posts ++ [(s.createPost ins now).snd] := rfl

theorem createPost_snd_id (s : Storage) (ins : InsertPost) (now : Int) :
    (s.createPost ins now).snd.id = s.nextPostId := rfl

theorem createPost_snd_status (s : Storage) (ins : InsertPost) (now : Int) :
    (s.createPost ins now).snd.status = ins.status := rfl

theorem mem_createPost_elim {s : Storage} {ins : InsertPost} {now : Int} {q : Post}
    (hq : q ∈ (s.createPost ins now).fst.posts) :
    q ∈ s.posts ∨ q = (s.createPost ins now).snd := by
  rw [createPost_posts] at hq
  rcases List.mem_append.mp hq with h | h
  · exact Or.inl h
  · exact Or.inr (List.mem_singleton.mp h)

theorem wf_createPost {s : Storage} (ins : InsertPost) (now : Int) (h : WFPosts s) :
    WFPosts (s.createPost ins now).fst := by
  constructor
  · rw [createPost_posts, List.map_append]
    rw [List.nodup_append]
    refine ⟨h.1, List.nodup_singleton _, ?_⟩
    intro a ha hb
    rw [List.map_singleton, List.mem_singleton] at hb
    obtain ⟨p, hp, hpa⟩ := List.mem_map.mp ha
    rw [createPost_snd_id] at hb
    have := h.2 p hp
    omega
  · intro p hp
    rcases mem_createPost_elim hp with hmem | hnew
    · have := h.2 p hmem
      show p.id < s.nextPostId + 1
      omega
    · rw [hnew, createPost_snd_id]
      show s.nextPostId < s.nextPostId + 1
      omega

theorem posts_updateCampaign (s : Storage) (cid : Nat) (t : Int) :
    (s.updateCampaignLastRssFetchAt cid t).posts = s.posts := rfl

theorem nextPostId_updateCampaign (s : Storage) (cid : Nat) (t : Int) :
    (s.updateCampaignLastRssFetchAt cid t).nextPostId = s.nextPostId := rfl

theorem wf_updateCampaign {s : Storage} (cid : Nat) (t : Int) (h : WFPosts s) :
    WFPosts (s.updateCampaignLastRssFetchAt cid t) := by
  constructor
  · rw [posts_updateCampaign]
    exact h.1
  · intro p hp
    rw [posts_updateCampaign] at hp
    rw [nextPostId_updateCampaign]
    exact h.2 p hp

theorem wf_sublist_posts {s s2 : Storage} (hsub : s2.posts.Sublist s.posts)
    (hn : s2.nextPostId = s.nextPostId) (h : WFPosts s) : WFPosts s2 := by
  constructor
  · exact (hsub.map Post.id).nodup h.1
  · intro p hp
    rw [hn]
    exact h.2 p (hsub.mem hp)

/-! ### No-new-scheduled-post toolkit -/

theorem nns_refl (s : Storage) (cid : Nat) : NoNewSched s s cid := by
  intro p1 hp1 hc hs
  exact ⟨p1, hp1, rfl, hc, hs⟩

theorem nns_trans {s1 s2 s3 : Storage} {cid : Nat} (h12 : NoNewSched s1 s2 cid)
    (h23 : NoNewSched s2 s3 cid) : NoNewSched s1 s3 cid := by
  intro p3 hp3 hc hs
  obtain ⟨p2, hp2, hid2, hc2, hs2⟩ := h23 p3 hp3 hc hs
  obtain ⟨p1, hp1, hid1, hc1, hs1⟩ := h12 p2 hp2 hc2 hs2
  exact ⟨p1, hp1, hid1.trans hid2, hc1, hs1⟩

theorem nns_of_posts_eq {s1 s2 : Storage} {cid : Nat} (h : s2.posts = s1.posts) :
    NoNewSched s1 s2 cid := by
  intro p1 hp1 hc hs
  rw [h] at hp1
  exact ⟨p1, hp1, rfl, hc, hs⟩

theorem nns_of_logOnly {s1 s2 : Storage} {cid : Nat} (h : LogOnly s1 s2) :
    NoNewSched s1 s2 cid :=
  nns_of_posts_eq h.1

theorem nns_updatePost_nonsched {s : Storage} {pid : Nat} {u : PostUpdate} {cid : Nat}
    (h : u.status ≠ some "scheduled") : NoNewSched s (s.updatePost pid u) cid := by
  intro p1 hp1 hc hs
  rcases mem_updatePost_elim hp1 with ⟨p, hp, _, hp1q⟩ | ⟨hq, _⟩
  · refine ⟨p, hp, ?_, ?_, ?_⟩
    · rw [hp1q, applyPostUpdate_id]
    · rw [hp1q, applyPostUpdate_campaignId] at hc
      exact hc
    · rw [hp1q] at hs
      have happ : (applyPostUpdate p u).status = u.status.getD p.status := rfl
      rw [happ] at hs
      cases hu : u.status with
      | none =>
        rw [hu] at hs
        exact hs
      | some st =>
        rw [hu] at hs
        have hst : st = "scheduled" := hs
        rw [hst] at hu
        exact absurd hu h
  · exact ⟨p1, hq, rfl, hc, hs⟩

theorem nns_updatePost_otherCampaign {s : Storage} {pid : Nat} {u : PostUpdate} {cid : Nat}
    (h : ∀ q ∈ s.posts, q.id = pid → q.campaignId ≠ cid) :
    NoNewSched s (s.updatePost pid u) cid := by
  intro p1 hp1 hc hs
  rcases mem_updatePost_elim hp1 with ⟨p, hp, hpid, hp1q⟩ | ⟨hq, _⟩
  · exfalso
    apply h p hp hpid
    rw [hp1q, applyPostUpdate_campaignId] at hc
    exact hc
  · exact ⟨p1, hq, rfl, hc, hs⟩

theorem nns_createPost {s : Storage} {ins : InsertPost} {now : Int} {cid : Nat}
    (h : ins.status ≠ "scheduled") : NoNewSched s (s.createPost ins now).fst cid := by
  intro p1 hp1 hc hs
  rcases mem_createPost_elim hp1 with hmem | hnew
  · exact ⟨p1, hmem, rfl, hc, hs⟩
  · exfalso
    apply h
    rw [hnew, createPost_snd_status] at hs
    exact hs.symm ▸ rfl

theorem nns_updateCampaign (s : Storage) (cid2 : Nat) (t : Int) (cid : Nat) :
    NoNewSched s (s.updateCampaignLastRssFetchAt cid2 t) cid :=
  nns_of_posts_eq (posts_updateCampaign s cid2 t)

theorem nns_of_mem_subset {s1 s2 : Storage} {cid : Nat}
    (h : ∀ p ∈ s2.posts, p ∈ s1.posts) : NoNewSched s1 s2 cid := by
  intro p1 hp1 hc hs
  exact ⟨p1, h p1 hp1, rfl, hc, hs⟩

/-! ### Shape equality -/

theorem shapeEq_refl (s : Storage) : ShapeEq s s := ⟨rfl, rfl, rfl⟩

theorem shapeEq_trans {s1 s2 s3 : Storage} (h12 : ShapeEq s1 s2) (h23 : ShapeEq s2 s3) :
    ShapeEq s1 s3 :=
  ⟨h23.1.trans h12.1, h23.2.1.trans h12.2.1, h23.2.2.trans h12.2.2⟩

theorem shapeEq_of_logOnly {s1 s2 : Storage} (h : LogOnly s1 s2) : ShapeEq s1 s2 :=
  ⟨by rw [h.1], h.2.1, h.2.2⟩

theorem shapeEq_updatePost (s : Storage) (pid : Nat) (u : PostUpdate) :
    ShapeEq s (s.updatePost pid u) :=
  ⟨updatePost_map_pairs s pid u, rfl, rfl⟩

theorem wf_of_shapeEq {s s2 : Storage} (h : ShapeEq s s2) (hwf : WFPosts s) : WFPosts s2 := by
  have hid : s2.posts.map Post.id = s.posts.map Post.id := by
    have h1 : (s2.posts.map (fun p => (p.id, p.campaignId))).map Prod.fst
        = (s.posts.map (fun p => (p.id, p.campaignId))).map Prod.fst := by rw [h.1]
    rw [List.map_map, List.map_map] at h1
    exact h1
  constructor
  · rw [hid]
    exact hwf.1
  · intro p hp
    have : p.id ∈ s2.posts.map Post.id := List.mem_map_of_mem Post.id hp
    rw [hid] at this
    obtain ⟨q, hq, hqid⟩ := List.mem_map.mp this
    rw [h.2.2, ← hqid]
    exact hwf.2 q hq

theorem find_of_pairs_eq :
    ∀ {l2 l1 : List Post},
      l2.map (fun p => (p.id, p.campaignId)) = l1.map (fun p => (p.id, p.campaignId)) →
      ∀ q : Nat,
        (l2.find? (fun p => p.id == q)).map Post.campaignId =
          (l1.find? (fun p => p.id == q)).map Post.campaignId ∧
        (l2.find? (fun p => p.id == q)).isSome = (l1.find? (fun p => p.id == q)).isSome := by
  intro l2
  induction l2 with
  | nil =>
    intro l1 h q
    cases l1 with
    | nil => exact ⟨rfl, rfl⟩
    | cons p t => exact absurd h (by simp)
  | cons p2 t2 ih =>
    intro l1 h q
    cases l1 with
    | nil => exact absurd h (by simp)
    | cons p1 t1 =>
      simp only [List.map_cons, List.cons.injEq] at h
      obtain ⟨hhead, htail⟩ := h
      have hid : p2.id = p1.id := congrArg Prod.fst hhead
      have hcampg : p2.campaignId = p1.campaignId := congrArg Prod.snd hhead
      by_cases hq : (p1.id == q) = true
      · rw [@List.find?_cons_of_pos _ (fun p => p.id == q) p2 t2
            (by show (p2.id == q) = true; rw [hid]; exact hq),
          @List.find?_cons_of_pos _ (fun p => p.id == q) p1 t1 hq]
        constructor
        · show some p2.campaignId = some p1.campaignId
          rw [hcampg]
        · rfl
      · rw [@List.find?_cons_of_neg _ (fun p => p.id == q) p2 t2
            (by show ¬((p2.id == q) = true); rw [hid]; exact hq),
          @List.find?_cons_of_neg _ (fun p => p.id == q) p1 t1 hq]
        exact ih htail q

theorem campIdOf_shapeEq {s s2 : Storage} (h : ShapeEq s s2) (pid : Nat) :
    campIdOf s2 pid = campIdOf s pid :=
  (find_of_pairs_eq h.1 pid).1

theorem getPost_isSome_shapeEq {s s2 : Storage} (h : ShapeEq s s2) (pid : Nat) :
    (s2.getPost pid).isSome = (s.getPost pid).isSome :=
  (find_of_pairs_eq h.1 pid).2

/-! ### getPost stability -/

theorem getPost_createLog (s : Storage) (l : LogEntry) (pid : Nat) :
    (s.createLog l).getPost pid = s.getPost pid := rfl

theorem getPost_logOnly {s s2 : Storage} (h : LogOnly s s2) (pid : Nat) :
    s2.getPost pid = s.getPost pid := by
  show s2.posts.find? _ = s.posts.find? _
  rw [h.1]

theorem find_map_update_ne {l : List Post} {pid q : Nat} {u : PostUpdate} (h : q ≠ pid) :
    (l.map (fun p => if p.id == pid then applyPostUpdate p u else p)).find?
        (fun p => p.id == q) =
      l.find? (fun p => p.id == q) := by
  induction l with
  | nil => rfl
  | cons p t ih =>
    rw [List.map_cons]
    by_cases hppid : (p.id == pid) = true
    · have hpidv : p.id = pid := by simpa using hppid
      have hne : ¬(((if p.id == pid then applyPostUpdate p u else p).id == q) = true) := by
        rw [if_pos hppid, applyPostUpdate_id]
        simp [hpidv, Ne.symm h]
      rw [@List.find?_cons_of_neg _ (fun (r : Post) => r.id == q) _ _ hne]
      have hne2 : ¬((p.id == q) = true) := by
        simp [hpidv, Ne.symm h]
      rw [@List.find?_cons_of_neg _ (fun (r : Post) => r.id == q) _ _ hne2]
      exact ih
    · rw [if_neg hppid]
      by_cases hpq : (p.id == q) = true
      · rw [@List.find?_cons_of_pos _ (fun (r : Post) => r.id == q) _ _ hpq,
          @List.find?_cons_of_pos _ (fun (r : Post) => r.id == q) _ _ hpq]
      · rw [@List.find?_cons_of_neg _ (fun (r : Post) => r.id == q) _ _ hpq,
          @List.find?_cons_of_neg _ (fun (r : Post) => r.id == q) _ _ hpq]
        exact ih

theorem getPost_updatePost_ne (s : Storage) (pid q : Nat) (u : PostUpdate) (h : q ≠ pid) :
    (s.updatePost pid u).getPost q = s.getPost q :=
  find_map_update_ne h

theorem find_map_update_self {l : List Post} {pid : Nat} {u : PostUpdate} :
    (l.map (fun p => if p.id == pid then applyPostUpdate p u else p)).find?
        (fun p => p.id == pid) =
      (l.find? (fun p => p.id == pid)).map (fun p => applyPostUpdate p u) := by
  induction l with
  | nil => rfl
  | cons p t ih =>
    rw [List.map_cons]
    by_cases hppid : (p.id == pid) = true
    · rw [@List.find?_cons_of_pos _ (fun (r : Post) => r.id == pid) _ _
        (by show ((if p.id == pid then applyPostUpdate p u else p).id == pid) = true
            rw [if_pos hppid, applyPostUpdate_id]
            exact hppid)]
      rw [@List.find?_cons_of_pos _ (fun (r : Post) => r.id == pid) _ _ hppid]
      rw [if_pos hppid]
      rfl
    · rw [if_neg hppid]
      rw [@List.find?_cons_of_neg _ (fun (r : Post) => r.id == pid) _ _ hppid,
        @List.find?_cons_of_neg _ (fun (r : Post) => r.id == pid) _ _ hppid]
      exact ih

theorem getPost_updatePost_self (s : Storage) (pid : Nat) (u : PostUpdate) :
    (s.updatePost pid u).getPost pid =
      (s.getPost pid).map (fun p => applyPostUpdate p u) :=
  find_map_update_self

theorem getPost_mem {s : Storage} {pid : Nat} {q : Post} (h : s.getPost pid = some q) :
    q ∈ s.posts ∧ q.id = pid := by
  have hmem := List.mem_of_find?_eq_some h
  have hpred := List.find?_some h
  exact ⟨hmem, by simpa using hpred⟩

theorem getPost_of_mem {s : Storage} {p : Post} (hwf : WFPosts s) (hp : p ∈ s.posts) :
    s.getPost p.id = some p := by
  have h1 : (s.getPost p.id).isSome := by
    show (s.posts.find? (fun q => q.id == p.id)).isSome
    rw [List.find?_isSome]
    exact ⟨p, hp, by simp⟩
  obtain ⟨q, hq⟩ := Option.isSome_iff_exists.mp h1
  obtain ⟨hqmem, hqid⟩ := getPost_mem hq
  have : q = p := by
    have hinj := List.inj_on_of_nodup_map hwf.1
    exact hinj hqmem hp hqid
  rw [hq, this]

/-! ### processNewPost block lemmas -/

/-- Case analysis principle for processNewPost: every run is a
relevance-failure block on the input storage, a caption-failure block on
a log-extended storage, or a finish block on a log-extended storage. -/
theorem processNewPost_elim (env : Env) (post : Post) (c : Campaign)
    (target : Option Int) (s : Storage) {P : Storage × Except String Unit → Prop}
    (hrel : P (pnpRelevanceFail env post c s))
    (hcap : ∀ s', LogOnly s s' → P (pnpCaptionFail post c s'))
    (hfin : ∀ s' cap, LogOnly s s' → P (pnpFinish env post c target cap s')) :
    P (processNewPost env post c target s) := by
  unfold processNewPost
  by_cases hr : (!(env.relevant post.id)) = true
  · rw [if_pos hr]
    exact hrel
  · rw [if_neg hr]
    dsimp only
    split
    · apply hcap
      exact logOnly_trans (logOnly_createLog s _) (captionLoop_logOnly env c post _ _ _)
    · apply hfin
      exact logOnly_trans (logOnly_createLog s _) (captionLoop_logOnly env c post _ _ _)

theorem invall_of_posts_eq {s s2 : Storage} (h : s2.posts = s.posts) (hi : InvAll s) :
    InvAll s2 := by
  intro p hp
  rw [h] at hp
  exact hi p hp

theorem invall_updatePost {s : Storage} {pid : Nat} {u : PostUpdate} (h : InvAll s)
    (hgood : ∀ q ∈ s.posts, q.id = pid → StatusInv (applyPostUpdate q u)) :
    InvAll (s.updatePost pid u) := by
  intro p hp
  rcases mem_updatePost_elim hp with ⟨q, hq, hqid, hpq⟩ | ⟨hq, _⟩
  · rw [hpq]
    exact hgood q hq hqid
  · exact h p hq

/-- A failure-style update (status failed, postedAt and scheduledFor
untouched) keeps the status invariant of a post that was not posted. -/
theorem statusInv_fail_update {q : Post} {u : PostUpdate}
    (hst : u.status = some "failed") (hpa : u.postedAt = none)
    (hq : q.postedAt = none) : StatusInv (applyPostUpdate q u) := by
  constructor
  · intro habs
    have : (applyPostUpdate q u).status = "failed" := by
      show u.status.getD q.status = "failed"
      rw [hst]
      rfl
    rw [this] at habs
    exact absurd habs (by decide)
  · constructor
    · intro habs
      have : (applyPostUpdate q u).status = "failed" := by
        show u.status.getD q.status = "failed"
        rw [hst]
        rfl
      rw [this] at habs
      exact absurd habs (by decide)
    · intro habs
      exfalso
      apply habs
      show u.postedAt.getD q.postedAt = none
      rw [hpa]
      show q.postedAt = none
      exact hq

theorem pnp_shapeEq (env : Env) (post : Post) (c : Campaign) (target : Option Int)
    (s : Storage) : ShapeEq s (processNewPost env post c target s).fst := by
  apply processNewPost_elim env post c target s (P := fun r => ShapeEq s r.fst)
  · unfold pnpRelevanceFail
    exact shapeEq_trans (shapeEq_updatePost s _ _)
      (shapeEq_of_logOnly (logOnly_createLog _ _))
  · intro s' hlog
    unfold pnpCaptionFail
    exact shapeEq_trans (shapeEq_of_logOnly hlog)
      (shapeEq_trans (shapeEq_updatePost s' _ _)
        (shapeEq_of_logOnly (logOnly_createLog _ _)))
  · intro s' cap hlog
    unfold pnpFinish
    dsimp only
    have h1 : LogOnly s' (imageFallback env c post cap.imageFallbackConcepts
        (imageLoop env c post 1 MAX_RETRIES s').snd
        (imageLoop env c post 1 MAX_RETRIES s').fst).fst :=
      logOnly_trans (imageLoop_logOnly env c post _ _ _) (imageFallback_logOnly env c post _ _ _)
    split
    · exact shapeEq_trans (shapeEq_of_logOnly hlog)
        (shapeEq_trans (shapeEq_of_logOnly h1)
          (shapeEq_trans (shapeEq_updatePost _ _ _)
            (shapeEq_of_logOnly (logOnly_createLog _ _))))
    · exact shapeEq_trans (shapeEq_of_logOnly hlog)
        (shapeEq_trans (shapeEq_of_logOnly h1) (shapeEq_updatePost _ _ _))

theorem pnp_wf (env : Env) (post : Post) (c : Campaign) (target : Option Int)
    (s : Storage) (h : WFPosts s) : WFPosts (processNewPost env post c target s).fst :=
  wf_of_shapeEq (pnp_shapeEq env post c target s) h

theorem ptd_cases (c : Campaign) (target : Option Int) :
    (pnpTargetDecision c target = ("scheduled", target) ∧ target.isSome = true) ∨
    pnpTargetDecision c target = ("draft", none) := by
  unfold pnpTargetDecision
  by_cases hc : (c.isActive && c.autoPublish && target.isSome) = true
  · rw [if_pos hc]
    refine Or.inl ⟨rfl, ?_⟩
    simp only [Bool.and_eq_true] at hc
    exact hc.2
  · rw [if_neg hc]
    exact Or.inr rfl

theorem ptd_fst_ne_posted (c : Campaign) (target : Option Int) :
    (pnpTargetDecision c target).fst ≠ "posted" := by
  rcases ptd_cases c target with ⟨h, _⟩ | h
  · rw [h]
    show ("scheduled" : String) ≠ "posted"
    decide
  · rw [h]
    decide

theorem ptd_sched_some (c : Campaign) (target : Option Int)
    (h : (pnpTargetDecision c target).fst = "scheduled") :
    (pnpTargetDecision c target).snd ≠ none := by
  rcases ptd_cases c target with ⟨hd, hsome⟩ | hd
  · rw [hd]
    exact Option.ne_none_iff_isSome.mpr hsome
  · rw [hd] at h
    exact absurd h (by decide)

/-- The enrichment-final update (status and scheduledFor from the
auto-schedule decision, postedAt untouched) keeps the status invariant
of a post that was not posted. -/
theorem statusInv_dec_update {q : Post} {u : PostUpdate} {st : String} {sf : Option Int}
    (hst : u.status = some st) (hsf : u.scheduledFor = some sf) (hpau : u.postedAt = none)
    (hq : q.postedAt = none) (hnp : st ≠ "posted") (hss : st = "scheduled" → sf ≠ none) :
    StatusInv (applyPostUpdate q u) := by
  have hstv : (applyPostUpdate q u).status = st := by
    show u.status.getD q.status = st
    rw [hst]
    rfl
  have hsfv : (applyPostUpdate q u).scheduledFor = sf := by
    show u.scheduledFor.getD q.scheduledFor = sf
    rw [hsf]
    rfl
  have hpav : (applyPostUpdate q u).postedAt = q.postedAt := by
    show u.postedAt.getD q.postedAt = q.postedAt
    rw [hpau]
    rfl
  constructor
  · intro h
    rw [hstv] at h
    rw [hsfv]
    exact hss h
  · constructor
    · intro h
      rw [hstv] at h
      exact absurd h hnp
    · intro h
      exfalso
      apply h
      rw [hpav]
      exact hq

theorem invall_pnpFinish (env : Env) (post : Post) (c : Campaign) (target : Option Int)
    (cap : CaptionResult) {s0 s1 : Storage} (hposts : s1.posts = s0.posts) (h : InvAll s0)
    (hpa : ∀ q ∈ s0.posts, q.id = post.id → q.postedAt = none) :
    InvAll (pnpFinish env post c target cap s1).fst := by
  unfold pnpFinish
  dsimp only
  have h1 : LogOnly s1 (imageFallback env c post cap.imageFallbackConcepts
      (imageLoop env c post 1 MAX_RETRIES s1).snd
      (imageLoop env c post 1 MAX_RETRIES s1).fst).fst :=
    logOnly_trans (imageLoop_logOnly env c post _ _ _) (imageFallback_logOnly env c post _ _ _)
  have hX : (imageFallback env c post cap.imageFallbackConcepts
      (imageLoop env c post 1 MAX_RETRIES s1).snd
      (imageLoop env c post 1 MAX_RETRIES s1).fst).fst.posts = s0.posts := by
    rw [h1.1, hposts]
  have hstep : ∀ q ∈ s0.posts, q.id = post.id → StatusInv (applyPostUpdate q
      { generatedCaption := some (some cap.caption)
        imageUrl := some ((imageFallback env c post cap.imageFallbackConcepts
          (imageLoop env c post 1 MAX_RETRIES s1).snd
          (imageLoop env c post 1 MAX_RETRIES s1).fst).snd.map Prod.fst)
        imageCredit := some ((imageFallback env c post cap.imageFallbackConcepts
          (imageLoop env c post 1 MAX_RETRIES s1).snd
          (imageLoop env c post 1 MAX_RETRIES s1).fst).snd.map Prod.snd)
        imageSearchPhrase := some (if cap.imageSearchPhrase == "" then none
          else some cap.imageSearchPhrase)
        status := some (pnpTargetDecision c target).fst
        scheduledFor := some (pnpTargetDecision c target).snd
        aiModel := some (some env.aiModel) }) := by
    intro q hq hid
    exact statusInv_dec_update rfl rfl rfl (hpa q hq hid) (ptd_fst_ne_posted c target)
      (ptd_sched_some c target)
  have hXinv : InvAll (imageFallback env c post cap.imageFallbackConcepts
      (imageLoop env c post 1 MAX_RETRIES s1).snd
      (imageLoop env c post 1 MAX_RETRIES s1).fst).fst := invall_of_posts_eq hX h
  have hupd := invall_updatePost hXinv (by rw [hX]; exact hstep)
  split
  · exact invall_of_posts_eq (posts_createLog _ _) hupd
  · exact hupd

theorem pnp_invall (env : Env) (post : Post) (c : Campaign) (target : Option Int)
    (s : Storage) (h : InvAll s)
    (hnp : ∀ q ∈ s.posts, q.id = post.id → q.status ≠ "posted") :
    InvAll (processNewPost env post c target s).fst := by
  have hpa : ∀ q ∈ s.posts, q.id = post.id → q.postedAt = none := by
    intro q hq hid
    have hinv := h q hq
    by_cases hn : q.postedAt = none
    · exact hn
    · exact absurd (hinv.2.mpr hn) (hnp q hq hid)
  apply processNewPost_elim env post c target s (P := fun r => InvAll r.fst)
  · unfold pnpRelevanceFail
    apply invall_of_posts_eq (posts_createLog _ _)
    apply invall_updatePost h
    intro q hq hid
    exact statusInv_fail_update rfl rfl (hpa q hq hid)
  · intro s1 hlog
    unfold pnpCaptionFail
    apply invall_of_posts_eq (posts_createLog _ _)
    apply invall_updatePost (invall_of_posts_eq hlog.1 h)
    intro q hq hid
    rw [hlog.1] at hq
    exact statusInv_fail_update rfl rfl (hpa q hq hid)
  · intro s1 cap hlog
    exact invall_pnpFinish env post c target cap hlog.1 h hpa

/-! ### publishPost block lemmas -/

theorem publishSuccess_shapeEq (env : Env) (now : Int) (post : Post) (c : Campaign)
    (a : Nat) (wl : List Int) (s : Storage) :
    ShapeEq s (publishSuccess env now post c a wl s).storage := by
  unfold publishSuccess
  cases env.sheetsError <;>
    exact shapeEq_trans (shapeEq_updatePost _ _ _)
      (shapeEq_trans (shapeEq_of_logOnly (logOnly_createLog _ _))
        (shapeEq_of_logOnly (logOnly_createLog _ _)))

theorem publishSuccess_getPost_self (env : Env) (now : Int) (post : Post) (c : Campaign)
    (a : Nat) (wl : List Int) (s : Storage) :
    (publishSuccess env now post c a wl s).storage.getPost post.id =
      (s.getPost post.id).map (fun p => applyPostUpdate p
        { status := some "posted", postedAt := some (some now) }) := by
  unfold publishSuccess
  cases env.sheetsError <;> exact getPost_updatePost_self s post.id _

theorem publishSuccess_getPost_ne (env : Env) (now : Int) (post : Post) (c : Campaign)
    (a : Nat) (wl : List Int) (s : Storage) (q : Nat) (h : q ≠ post.id) :
    (publishSuccess env now post c a wl s).storage.getPost q = s.getPost q := by
  unfold publishSuccess
  cases env.sheetsError <;> exact getPost_updatePost_ne s post.id q _ h

theorem publishSuccess_result (env : Env) (now : Int) (post : Post) (c : Campaign)
    (a : Nat) (wl : List Int) (s : Storage) :
    (publishSuccess env now post c a wl s).result = Except.ok () := rfl

theorem publishFailure_shapeEq (post : Post) (c : Campaign) (le : Option String)
    (a : Nat) (wl : List Int) (s : Storage) :
    ShapeEq s (publishFailure post c le a wl s).storage :=
  shapeEq_trans (shapeEq_updatePost _ _ _) (shapeEq_of_logOnly (logOnly_createLog _ _))

theorem publishFailure_getPost_self (post : Post) (c : Campaign) (le : Option String)
    (a : Nat) (wl : List Int) (s : Storage) :
    (publishFailure post c le a wl s).storage.getPost post.id =
      (s.getPost post.id).map (fun p => applyPostUpdate p
        { status := some "failed",
          failureReason := some (some (jsOrDefault le "Max retries exceeded")),
          retryCount := some a }) :=
  getPost_updatePost_self s post.id _

theorem publishFailure_getPost_ne (post : Post) (c : Campaign) (le : Option String)
    (a : Nat) (wl : List Int) (s : Storage) (q : Nat) (h : q ≠ post.id) :
    (publishFailure post c le a wl s).storage.getPost q = s.getPost q :=
  getPost_updatePost_ne s post.id q _ h

theorem publishLoop_elim (env : Env) (now : Int) (post : Post) (c : Campaign) :
    ∀ (remaining attempts : Nat) (le : Option String) (w : List Int) (s : Storage),
      ∃ s', LogOnly s s' ∧
        ((∃ a wl, publishLoop env now post c attempts remaining le w s =
            publishSuccess env now post c a wl s') ∨
         (∃ le2 a wl, publishLoop env now post c attempts remaining le w s =
            publishFailure post c le2 a wl s')) := by
  intro remaining
  induction remaining with
  | zero =>
    intro attempts le w s
    exact ⟨s, logOnly_refl s, Or.inr ⟨le, attempts, w, by simp only [publishLoop]⟩⟩
  | succ n ih =>
    intro attempts le w s
    cases htr : env.transport post.id (attempts + 1) with
    | none =>
      refine ⟨s, logOnly_refl s, Or.inl ⟨attempts + 1, w, ?_⟩⟩
      simp only [publishLoop, htr]
    | some e =>
      by_cases hn : n > 0
      · obtain ⟨s', hlog, hres⟩ := ih (attempts + 1) (some e)
          (w ++ [5000 * ((attempts + 1 : Nat) : Int)])
          (s.createLog
            { campaignId := c.id, postId := some post.id, level := "warning",
              message := "Publish failed, retrying" })
        refine ⟨s', logOnly_trans (logOnly_createLog _ _) hlog, ?_⟩
        have heq : publishLoop env now post c attempts (n + 1) le w s =
            publishLoop env now post c (attempts + 1) n (some e)
              (w ++ [5000 * ((attempts + 1 : Nat) : Int)])
              (s.createLog
                { campaignId := c.id, postId := some post.id, level := "warning",
                  message := "Publish failed, retrying" }) := by
          simp only [publishLoop, htr, if_pos hn]
        rw [heq]
        exact hres
      · have hn0 : n = 0 := by omega
        subst hn0
        refine ⟨s, logOnly_refl s, Or.inr ⟨some e, attempts + 1, w, ?_⟩⟩
        simp only [publishLoop, htr, if_neg hn]

theorem publishPost_elim (env : Env) (now : Int) (post : Post) (c : Campaign) (s : Storage) :
    publishPost env now post c s =
      { storage := s, result := Except.error "Post has no caption to publish",
        attempts := 0, waitsMs := [] } ∨
    ∃ s', LogOnly s s' ∧
      ((∃ a wl, publishPost env now post c s = publishSuccess env now post c a wl s') ∨
       (∃ le a wl, publishPost env now post c s = publishFailure post c le a wl s')) := by
  unfold publishPost
  by_cases hcap : (post.generatedCaption.getD "" == "") = true
  · rw [if_pos hcap]
    exact Or.inl rfl
  · rw [if_neg hcap]
    exact Or.inr (publishLoop_elim env now post c MAX_RETRIES 0 none [] s)

theorem publishPost_shapeEq (env : Env) (now : Int) (post : Post) (c : Campaign)
    (s : Storage) : ShapeEq s (publishPost env now post c s).storage := by
  rcases publishPost_elim env now post c s with heq |
    ⟨s', hlog, ⟨a, wl, heq⟩ | ⟨le, a, wl, heq⟩⟩
  · rw [heq]
    exact shapeEq_refl s
  · rw [heq]
    exact shapeEq_trans (shapeEq_of_logOnly hlog) (publishSuccess_shapeEq env now post c a wl s')
  · rw [heq]
    exact shapeEq_trans (shapeEq_of_logOnly hlog) (publishFailure_shapeEq post c le a wl s')

theorem publishPost_getPost_ne (env : Env) (now : Int) (post : Post) (c : Campaign)
    (s : Storage) (q : Nat) (h : q ≠ post.id) :
    (publishPost env now post c s).storage.getPost q = s.getPost q := by
  rcases publishPost_elim env now post c s with heq |
    ⟨s', hlog, ⟨a, wl, heq⟩ | ⟨le, a, wl, heq⟩⟩
  · rw [heq]
  · rw [heq, publishSuccess_getPost_ne env now post c a wl s' q h, getPost_logOnly hlog]
  · rw [heq, publishFailure_getPost_ne post c le a wl s' q h, getPost_logOnly hlog]

theorem publishPost_ok_posted (env : Env) (now : Int) (post : Post) (c : Campaign)
    (s : Storage) {cur : Post} (hpre : s.getPost post.id = some cur)
    (hok : (publishPost env now post c s).result = Except.ok ()) :
    statusOf (publishPost env now post c s).storage post.id = some "posted" := by
  rcases publishPost_elim env now post c s with heq |
    ⟨s', hlog, ⟨a, wl, heq⟩ | ⟨le, a, wl, heq⟩⟩
  · rw [heq] at hok
    exact absurd hok (by simp)
  · unfold statusOf
    rw [heq, publishSuccess_getPost_self env now post c a wl s', getPost_logOnly hlog, hpre]
    rfl
  · rw [heq] at hok
    exact absurd hok (by simp [publishFailure])

theorem publishPost_err_status (env : Env) (now : Int) (post : Post) (c : Campaign)
    (s : Storage) {cur : Post} (hpre : s.getPost post.id = some cur)
    (herr : (publishPost env now post c s).result ≠ Except.ok ()) :
    statusOf (publishPost env now post c s).storage post.id = some "failed" ∨
    statusOf (publishPost env now post c s).storage post.id = statusOf s post.id := by
  rcases publishPost_elim env now post c s with heq |
    ⟨s', hlog, ⟨a, wl, heq⟩ | ⟨le, a, wl, heq⟩⟩
  · rw [heq]
    exact Or.inr rfl
  · exfalso
    apply herr
    rw [heq]
    rfl
  · refine Or.inl ?_
    unfold statusOf
    rw [heq, publishFailure_getPost_self post c le a wl s', getPost_logOnly hlog, hpre]
    rfl

theorem publishPost_invall (env : Env) (now : Int) (post : Post) (c : Campaign)
    (s : Storage) (h : InvAll s)
    (hs : ∀ q ∈ s.posts, q.id = post.id → q.status = "scheduled") :
    InvAll (publishPost env now post c s).storage := by
  have hpa : ∀ q ∈ s.posts, q.id = post.id → q.postedAt = none := by
    intro q hq hid
    have hinv := h q hq
    by_cases hn : q.postedAt = none
    · exact hn
    · have : q.status = "posted" := hinv.2.mpr hn
      rw [hs q hq hid] at this
      exact absurd this (by decide)
  rcases publishPost_elim env now post c s with heq |
    ⟨s', hlog, ⟨a, wl, heq⟩ | ⟨le, a, wl, heq⟩⟩
  · rw [heq]
    exact h
  · rw [heq]
    unfold publishSuccess
    cases env.sheetsError <;>
      · apply invall_of_posts_eq (posts_createLog _ _)
        apply invall_of_posts_eq (posts_createLog _ _)
        apply invall_updatePost (invall_of_posts_eq hlog.1 h)
        intro q _ _
        constructor
        · intro habs
          have hps : (applyPostUpdate q
              { status := some "posted", postedAt := some (some now) }).status = "posted" := rfl
          rw [hps] at habs
          exact absurd habs (by decide)
        · constructor
          · intro _
            show (some (some now) : Option (Option Int)).getD q.postedAt ≠ none
            simp
          · intro _
            rfl
  · rw [heq]
    unfold publishFailure
    apply invall_of_posts_eq (posts_createLog _ _)
    apply invall_updatePost (invall_of_posts_eq hlog.1 h)
    intro q hq hid
    rw [hlog.1] at hq
    exact statusInv_fail_update rfl rfl (hpa q hq hid)

/-! ### Publish pass master invariant -/

theorem statusOf_eq_of_getPost {s : Storage} {id : Nat} {q : Post}
    (h : s.getPost id = some q) : statusOf s id = some q.status := by
  unfold statusOf
  rw [h]
  rfl

theorem campIdOf_eq_of_getPost {s : Storage} {id : Nat} {q : Post}
    (h : s.getPost id = some q) : campIdOf s id = some q.campaignId := by
  unfold campIdOf
  rw [h]
  rfl

theorem runCandidates_master (env : Env) (now : Int) (c : Campaign) (s0 : Storage)
    (pending : List Campaign) (hcpend : c.id ∉ pending.map Campaign.id) :
    ∀ (K : List Post) (st : PassState),
      PassInv s0 st →
      PassInner st pending K →
      (K.map Post.id).Nodup →
      (∀ p ∈ K, p.campaignId = c.id) →
      (∀ p ∈ K, p.id ∉ st.attemptedIds → st.storage.getPost p.id = some p) →
      PassInv s0 (runCandidates env now c K st) ∧
        PassInner (runCandidates env now c K st) pending [] := by
  intro K
  induction K with
  | nil =>
    intro st hinv hinner _ _ _
    refine ⟨hinv, ?_⟩
    intro id hid hsched
    exact ⟨(hinner id hid hsched).1, by simp⟩
  | cons p K' ih =>
    intro st hinv hinner hnodup hcamp hK3
    obtain ⟨hwf, hcampeq, hattnd, hpubatt, hpubposted, hattres, hframe, hatts0, hshape0, hinvp⟩
      := hinv
    have hinner' : PassInner st pending K' := by
      intro id hid hsched
      obtain ⟨h1, h2⟩ := hinner id hid hsched
      exact ⟨h1, fun hm => h2 (by simp [hm])⟩
    have hnodup' : (K'.map Post.id).Nodup := (List.nodup_cons.mp hnodup).2
    have hpnotK' : p.id ∉ K'.map Post.id := (List.nodup_cons.mp hnodup).1
    have hcamp' : ∀ r ∈ K', r.campaignId = c.id := fun r hr => hcamp r (by simp [hr])
    by_cases hcont : st.publishedIds.contains p.id = true
    · have hstep : runCandidates env now c (p :: K') st = runCandidates env now c K' st := by
        simp only [runCandidates, hcont, if_true]
      rw [hstep]
      exact ih st
        ⟨hwf, hcampeq, hattnd, hpubatt, hpubposted, hattres, hframe, hatts0, hshape0, hinvp⟩
        hinner' hnodup' hcamp' (fun r hr => hK3 r (by simp [hr]))
    · cases hget : st.storage.getPost p.id with
      | none =>
        have hstep : runCandidates env now c (p :: K') st = runCandidates env now c K' st := by
          simp [runCandidates, hcont, hget]
        rw [hstep]
        exact ih st
          ⟨hwf, hcampeq, hattnd, hpubatt, hpubposted, hattres, hframe, hatts0, hshape0, hinvp⟩
          hinner' hnodup' hcamp' (fun r hr => hK3 r (by simp [hr]))
      | some current =>
        by_cases hstat : (current.status != "scheduled") = true
        · have hstep : runCandidates env now c (p :: K') st = runCandidates env now c K' st := by
            simp [runCandidates, hcont, hget, hstat]
          rw [hstep]
          exact ih st
            ⟨hwf, hcampeq, hattnd, hpubatt, hpubposted, hattres, hframe, hatts0, hshape0, hinvp⟩
            hinner' hnodup' hcamp' (fun r hr => hK3 r (by simp [hr]))
        · -- delivery attempt
          have hpubfalse : p.id ∉ st.publishedIds := by
            intro hmem
            exact hcont (List.elem_eq_true_of_mem hmem)
          have hcurstat : current.status = "scheduled" := by
            simpa using hstat
          have hpnotatt : p.id ∉ st.attemptedIds := by
            intro hin
            rcases hattres p.id hin hpubfalse with hfail | hsched
            · rw [statusOf_eq_of_getPost hget, hcurstat] at hfail
              exact absurd hfail (by decide)
            · exact (hinner p.id hin hsched).2 (by simp)
          have hgetp : st.storage.getPost p.id = some p := hK3 p (by simp) hpnotatt
          have hcurp : current = p := by
            rw [hget] at hgetp
            exact Option.some.inj hgetp
          have hps : p.status = "scheduled" := by
            rw [← hcurp]
            exact hcurstat
          have hshape := publishPost_shapeEq env now p c st.storage
          have hframe1 : ∀ q, q ≠ p.id →
              (publishPost env now p c st.storage).storage.getPost q =
                st.storage.getPost q :=
            fun q hq => publishPost_getPost_ne env now p c st.storage q hq
          have hwf1 : WFPosts (publishPost env now p c st.storage).storage :=
            wf_of_shapeEq hshape hwf
          have hcampeq1 : (publishPost env now p c st.storage).storage.campaigns
              = s0.campaigns := by
            rw [hshape.2.1]
            exact hcampeq
          have hs0get : s0.getPost p.id = some p := by
            rw [← hframe p.id hpnotatt]
            exact hgetp
          have hs0stat : statusOf s0 p.id = some "scheduled" := by
            rw [statusOf_eq_of_getPost hs0get, hps]
          have hschedall : ∀ q ∈ st.storage.posts, q.id = p.id → q.status = "scheduled" := by
            intro q hq hqid
            have hqget : st.storage.getPost q.id = some q := getPost_of_mem hwf hq
            rw [hqid, hgetp] at hqget
            rw [← Option.some.inj hqget]
            exact hps
          -- the common preservation facts, parameterized by the outcome branch
          cases hres : (publishPost env now p c st.storage).result with
          | ok u =>
            cases u
            have hposted : statusOf (publishPost env now p c (st.storage)).storage p.id
                = some "posted" :=
              publishPost_ok_posted env now p c st.storage hgetp hres
            have hstep : runCandidates env now c (p :: K') st =
                runCandidates env now c K'
                  { storage := (publishPost env now p c st.storage).storage,
                    published := st.published + 1, failed := st.failed,
                    publishedIds := st.publishedIds ++ [p.id],
                    attemptedIds := st.attemptedIds ++ [p.id] } := by
              simp [runCandidates, hpubfalse, hget, hstat, hres]
            rw [hstep]
            apply ih
            · refine ⟨hwf1, hcampeq1, ?_, ?_, ?_, ?_, ?_, ?_, ?_, ?_⟩
              · rw [List.nodup_append]
                refine ⟨hattnd, List.nodup_singleton _, ?_⟩
                intro a ha hb
                rw [List.mem_singleton] at hb
                subst hb
                exact hpnotatt ha
              · intro id hid
                rcases List.mem_append.mp hid with h | h
                · exact List.mem_append.mpr (Or.inl (hpubatt id h))
                · exact List.mem_append.mpr (Or.inr h)
              · intro id hid
                rcases List.mem_append.mp hid with h | h
                · have hne : id ≠ p.id := fun he => hpnotatt (he ▸ hpubatt id h)
                  show statusOf (publishPost env now p c st.storage).storage id
                    = some "posted"
                  unfold statusOf
                  rw [hframe1 id hne]
                  exact hpubposted id h
                · rw [List.mem_singleton.mp h]
                  exact hposted
              · intro id hid hnp
                rcases List.mem_append.mp hid with h | h
                · have hne : id ≠ p.id := fun he => hpnotatt (he ▸ h)
                  have hnp' : id ∉ st.publishedIds :=
                    fun hm => hnp (List.mem_append.mpr (Or.inl hm))
                  have := hattres id h hnp'
                  show statusOf (publishPost env now p c st.storage).storage id
                      = some "failed" ∨ _
                  unfold statusOf
                  rw [hframe1 id hne]
                  exact this
                · exfalso
                  apply hnp
                  rw [List.mem_singleton.mp h]
                  exact List.mem_append.mpr (Or.inr (by simp))
              · intro id hid
                have hid1 : id ∉ st.attemptedIds := fun hm => hid (List.mem_append.mpr (Or.inl hm))
                have hid2 : id ≠ p.id := fun he => hid (List.mem_append.mpr (Or.inr (by simp [he])))
                rw [hframe1 id hid2]
                exact hframe id hid1
              · intro id hid
                rcases List.mem_append.mp hid with h | h
                · exact hatts0 id h
                · rw [List.mem_singleton.mp h]
                  exact hs0stat
              · exact shapeEq_trans hshape0 hshape
              · intro hi
                exact publishPost_invall env now p c st.storage (hinvp hi) hschedall
            · intro id hid hsched
              rcases List.mem_append.mp hid with h | h
              · have hne : id ≠ p.id := fun he => hpnotatt (he ▸ h)
                have hsched' : statusOf st.storage id = some "scheduled" := by
                  unfold statusOf at hsched ⊢
                  rw [hframe1 id hne] at hsched
                  exact hsched
                obtain ⟨h1, h2⟩ := hinner id h hsched'
                refine ⟨?_, fun hm => h2 (by simp [hm])⟩
                intro cid2 hc2
                apply h1 cid2
                rw [← hc2, campIdOf_shapeEq hshape]
              · exfalso
                rw [List.mem_singleton.mp h] at hsched
                rw [hposted] at hsched
                exact absurd (Option.some.inj hsched) (by decide)
            · exact hnodup'
            · exact hcamp'
            · intro r hr hnr
              have hr1 : r.id ∉ st.attemptedIds := fun hm => hnr (List.mem_append.mpr (Or.inl hm))
              have hr2 : r.id ≠ p.id := by
                intro he
                exact hpnotK' (he ▸ List.mem_map_of_mem Post.id hr)
              rw [hframe1 r.id hr2]
              exact hK3 r (by simp [hr]) hr1
          | error e =>
            have herr : (publishPost env now p c st.storage).result ≠ Except.ok () := by
              rw [hres]
              simp
            have hfs := publishPost_err_status env now p c st.storage hgetp herr
            have hstep : runCandidates env now c (p :: K') st =
                runCandidates env now c K'
                  { storage := (publishPost env now p c st.storage).storage,
                    published := st.published, failed := st.failed + 1,
                    publishedIds := st.publishedIds,
                    attemptedIds := st.attemptedIds ++ [p.id] } := by
              simp [runCandidates, hpubfalse, hget, hstat, hres]
            rw [hstep]
            apply ih
            · refine ⟨hwf1, hcampeq1, ?_, ?_, ?_, ?_, ?_, ?_, ?_, ?_⟩
              · rw [List.nodup_append]
                refine ⟨hattnd, List.nodup_singleton _, ?_⟩
                intro a ha hb
                rw [List.mem_singleton] at hb
                subst hb
                exact hpnotatt ha
              · intro id hid
                exact List.mem_append.mpr (Or.inl (hpubatt id hid))
              · intro id hid
                have hne : id ≠ p.id := fun he => hpnotatt (he ▸ hpubatt id hid)
                show statusOf (publishPost env now p c st.storage).storage id
                  = some "posted"
                unfold statusOf
                rw [hframe1 id hne]
                exact hpubposted id hid
              · intro id hid hnp
                rcases List.mem_append.mp hid with h | h
                · have hne : id ≠ p.id := fun he => hpnotatt (he ▸ h)
                  have := hattres id h hnp
                  show statusOf (publishPost env now p c st.storage).storage id
                      = some "failed" ∨ _
                  unfold statusOf
                  rw [hframe1 id hne]
                  exact this
                · rw [List.mem_singleton.mp h]
                  rcases hfs with hf | hunch
                  · exact Or.inl hf
                  · refine Or.inr ?_
                    rw [hunch, statusOf_eq_of_getPost hgetp, hps]
              · intro id hid
                have hid1 : id ∉ st.attemptedIds := fun hm => hid (List.mem_append.mpr (Or.inl hm))
                have hid2 : id ≠ p.id := fun he => hid (List.mem_append.mpr (Or.inr (by simp [he])))
                rw [hframe1 id hid2]
                exact hframe id hid1
              · intro id hid
                rcases List.mem_append.mp hid with h | h
                · exact hatts0 id h
                · rw [List.mem_singleton.mp h]
                  exact hs0stat
              · exact shapeEq_trans hshape0 hshape
              · intro hi
                exact publishPost_invall env now p c st.storage (hinvp hi) hschedall
            · intro id hid hsched
              rcases List.mem_append.mp hid with h | h
              · have hne : id ≠ p.id := fun he => hpnotatt (he ▸ h)
                have hsched' : statusOf st.storage id = some "scheduled" := by
                  unfold statusOf at hsched ⊢
                  rw [hframe1 id hne] at hsched
                  exact hsched
                obtain ⟨h1, h2⟩ := hinner id h hsched'
                refine ⟨?_, fun hm => h2 (by simp [hm])⟩
                intro cid2 hc2
                apply h1 cid2
                rw [← hc2, campIdOf_shapeEq hshape]
              · rw [List.mem_singleton.mp h] at hsched ⊢
                refine ⟨?_, hpnotK'⟩
                intro cid2 hc2
                rw [campIdOf_shapeEq hshape, campIdOf_eq_of_getPost hgetp] at hc2
                have : cid2 = p.campaignId := (Option.some.inj hc2).symm
                rw [this, hcamp p (by simp)]
                exact hcpend
            · exact hnodup'
            · exact hcamp'
            · intro r hr hnr
              have hr1 : r.id ∉ st.attemptedIds := fun hm => hnr (List.mem_append.mpr (Or.inl hm))
              have hr2 : r.id ≠ p.id := by
                intro he
                exact hpnotK' (he ▸ List.mem_map_of_mem Post.id hr)
              rw [hframe1 r.id hr2]
              exact hK3 r (by simp [hr]) hr1

theorem runCampaigns_master (env : Env) (now : Int) (s0 : Storage) :
    ∀ (cs : List Campaign) (st : PassState),
      (cs.map Campaign.id).Nodup →
      PassInv s0 st →
      PassInner st cs [] →
      PassInv s0 (runCampaigns env now cs st) ∧
        PassInner (runCampaigns env now cs st) [] [] := by
  intro cs
  induction cs with
  | nil =>
    intro st _ hinv hinner
    exact ⟨hinv, hinner⟩
  | cons c rest ih =>
    intro st hnd hinv hinner
    have hnd' : (Campaign.id c :: rest.map Campaign.id).Nodup := by
      rw [← List.map_cons]
      exact hnd
    have hndrest : (rest.map Campaign.id).Nodup := (List.nodup_cons.mp hnd').2
    have hcpend : c.id ∉ rest.map Campaign.id := (List.nodup_cons.mp hnd').1
    have hwf : WFPosts st.storage := hinv.1
    have hKsub : ((st.storage.getPostsByCampaign c.id).filter (duePost now)).Sublist
        st.storage.posts :=
      (List.filter_sublist _).trans (List.filter_sublist _)
    have hKnodup : (((st.storage.getPostsByCampaign c.id).filter (duePost now)).map
        Post.id).Nodup :=
      List.Nodup.sublist (hKsub.map Post.id) hwf.1
    have hKcamp : ∀ p ∈ (st.storage.getPostsByCampaign c.id).filter (duePost now),
        p.campaignId = c.id := by
      intro p hp
      have hp1 : p ∈ st.storage.getPostsByCampaign c.id := (List.mem_filter.mp hp).1
      have hp2 := (List.mem_filter.mp hp1).2
      simpa using hp2
    have hK3 : ∀ p ∈ (st.storage.getPostsByCampaign c.id).filter (duePost now),
        p.id ∉ st.attemptedIds → st.storage.getPost p.id = some p :=
      fun p hp _ => getPost_of_mem hwf (hKsub.subset hp)
    have hinnerK : PassInner st rest
        ((st.storage.getPostsByCampaign c.id).filter (duePost now)) := by
      intro id hid hsched
      obtain ⟨h1, _⟩ := hinner id hid hsched
      refine ⟨?_, ?_⟩
      · intro cid2 hc2 hm
        exact h1 cid2 hc2 (by rw [List.map_cons]; exact List.mem_cons_of_mem _ hm)
      · intro hmK
        obtain ⟨q, hqK, hqid⟩ := List.mem_map.mp hmK
        have hqget : st.storage.getPost q.id = some q :=
          getPost_of_mem hwf (hKsub.subset hqK)
        have hc2 : campIdOf st.storage id = some c.id := by
          rw [← hqid, campIdOf_eq_of_getPost hqget, hKcamp q hqK]
        exact h1 c.id hc2 (by rw [List.map_cons]; exact List.mem_cons_self _ _)
    have hstep := runCandidates_master env now c s0 rest hcpend
      ((st.storage.getPostsByCampaign c.id).filter (duePost now)) st
      hinv hinnerK hKnodup hKcamp hK3
    have hrw : runCampaigns env now (c :: rest) st = runCampaigns env now rest
        (runCandidates env now c ((st.storage.getPostsByCampaign c.id).filter (duePost now))
          st) := rfl
    rw [hrw]
    exact ih _ hndrest hstep.1 hstep.2

theorem publishScheduledPosts_inv (env : Env) (now : Int) (s : Storage)
    (hwf : WFPosts s) (hcamps : (s.campaigns.map Campaign.id).Nodup) :
    PassInv s (publishScheduledPosts env now s) := by
  have hnd : (s.getActiveCampaigns.map Campaign.id).Nodup :=
    List.Nodup.sublist ((List.filter_sublist _).map Campaign.id) hcamps
  have hinv0 : PassInv s ⟨s, 0, 0, [], []⟩ :=
    ⟨hwf, rfl, List.nodup_nil,
      fun id hid => absurd hid (List.not_mem_nil id),
      fun id hid => absurd hid (List.not_mem_nil id),
      fun id hid _ => absurd hid (List.not_mem_nil id),
      fun _ _ => rfl,
      fun id hid => absurd hid (List.not_mem_nil id),
      shapeEq_refl s,
      fun hi => hi⟩
  have hinner0 : PassInner ⟨s, 0, 0, [], []⟩ s.getActiveCampaigns [] :=
    fun id hid _ => absurd hid (List.not_mem_nil id)
  exact (runCampaigns_master env now s s.getActiveCampaigns ⟨s, 0, 0, [], []⟩
    hnd hinv0 hinner0).1

/-! ### Publish pass corollaries -/

theorem publishScheduledPosts_shapeEq (env : Env) (now : Int) (s : Storage)
    (hwf : WFPosts s) (hcamps : (s.campaigns.map Campaign.id).Nodup) :
    ShapeEq s (publishScheduledPosts env now s).storage :=
  (publishScheduledPosts_inv env now s hwf hcamps).2.2.2.2.2.2.2.2.1

theorem publishScheduledPosts_invall (env : Env) (now : Int) (s : Storage)
    (hwf : WFPosts s) (hcamps : (s.campaigns.map Campaign.id).Nodup)
    (hinv : InvAll s) : InvAll (publishScheduledPosts env now s).storage :=
  (publishScheduledPosts_inv env now s hwf hcamps).2.2.2.2.2.2.2.2.2 hinv

theorem publishScheduledPosts_nns (env : Env) (now : Int) (s : Storage)
    (hwf : WFPosts s) (hcamps : (s.campaigns.map Campaign.id).Nodup) (cid : Nat) :
    NoNewSched s (publishScheduledPosts env now s).storage cid := by
  obtain ⟨hwf1, _, _, _, hpubposted, hattres, hframe, hatts0, hshape0, _⟩ :=
    publishScheduledPosts_inv env now s hwf hcamps
  intro p1 hp1 hc hs
  have hget1 : (publishScheduledPosts env now s).storage.getPost p1.id = some p1 :=
    getPost_of_mem hwf1 hp1
  by_cases hatt : p1.id ∈ (publishScheduledPosts env now s).attemptedIds
  · have hnp : p1.id ∉ (publishScheduledPosts env now s).publishedIds := by
      intro hm
      have hpo := hpubposted p1.id hm
      rw [statusOf_eq_of_getPost hget1] at hpo
      have := Option.some.inj hpo
      rw [hs] at this
      exact absurd this (by decide)
    rcases hattres p1.id hatt hnp with hf | hsc
    · rw [statusOf_eq_of_getPost hget1] at hf
      have := Option.some.inj hf
      rw [hs] at this
      exact absurd this (by decide)
    · have hs0 := hatts0 p1.id hatt
      unfold statusOf at hs0
      cases hg0 : s.getPost p1.id with
      | none =>
        rw [hg0] at hs0
        simp at hs0
      | some p0 =>
        rw [hg0] at hs0
        have hmem0 := (getPost_mem hg0).1
        have hid0 : p0.id = p1.id := (getPost_mem hg0).2
        have hst0 : p0.status = "scheduled" := Option.some.inj hs0
        have hcamp0 : p0.campaignId = cid := by
          have h3 := campIdOf_shapeEq hshape0 p1.id
          rw [campIdOf_eq_of_getPost hget1, campIdOf_eq_of_getPost hg0] at h3
          rw [← Option.some.inj h3]
          exact hc
        exact ⟨p0, hmem0, hid0, hcamp0, hst0⟩
  · have hfr := hframe p1.id hatt
    rw [hget1] at hfr
    exact ⟨p1, (getPost_mem hfr.symm).1, rfl, hc, hs⟩

/-! ### No-new-posted facts -/

theorem nnp_refl (s : Storage) : NoNewPosted s s :=
  fun p hp hs => ⟨p, hp, rfl, hs⟩

theorem nnp_trans {s1 s2 s3 : Storage} (h12 : NoNewPosted s1 s2)
    (h23 : NoNewPosted s2 s3) : NoNewPosted s1 s3 := by
  intro p3 hp3 hs
  obtain ⟨p2, hp2, hid2, hs2⟩ := h23 p3 hp3 hs
  obtain ⟨p1, hp1, hid1, hs1⟩ := h12 p2 hp2 hs2
  exact ⟨p1, hp1, hid1.trans hid2, hs1⟩

theorem nnp_of_posts_eq {s1 s2 : Storage} (h : s2.posts = s1.posts) :
    NoNewPosted s1 s2 := by
  intro p hp hs
  rw [h] at hp
  exact ⟨p, hp, rfl, hs⟩

theorem nnp_updatePost {s : Storage} {pid : Nat} {u : PostUpdate}
    (h : ∀ st2, u.status = some st2 → st2 ≠ "posted") :
    NoNewPosted s (s.updatePost pid u) := by
  intro p1 hp1 hs
  rcases mem_updatePost_elim hp1 with ⟨p, hp, _, hp1q⟩ | ⟨hq, _⟩
  · refine ⟨p, hp, ?_, ?_⟩
    · rw [hp1q, applyPostUpdate_id]
    · rw [hp1q] at hs
      have happ : (applyPostUpdate p u).status = u.status.getD p.status := rfl
      rw [happ] at hs
      cases hu : u.status with
      | none =>
        rw [hu] at hs
        exact hs
      | some st2 =>
        rw [hu] at hs
        exact absurd hs (h st2 hu)
  · exact ⟨p1, hq, rfl, hs⟩

theorem nnp_createPost {s : Storage} {ins : InsertPost} {now : Int}
    (h : ins.status ≠ "posted") : NoNewPosted s (s.createPost ins now).fst := by
  intro p1 hp1 hs
  rcases mem_createPost_elim hp1 with hmem | hnew
  · exact ⟨p1, hmem, rfl, hs⟩
  · exfalso
    apply h
    rw [hnew, createPost_snd_status] at hs
    exact hs

theorem nnp_of_mem_subset {s1 s2 : Storage} (h : ∀ p ∈ s2.posts, p ∈ s1.posts) :
    NoNewPosted s1 s2 :=
  fun p hp hs => ⟨p, h p hp, rfl, hs⟩

/-! ### Campaign id sequence and creation facts -/

theorem campIds_updateCampaign (s : Storage) (cid2 : Nat) (t : Int) :
    (s.updateCampaignLastRssFetchAt cid2 t).campaigns.map Campaign.id
      = s.campaigns.map Campaign.id := by
  show (s.campaigns.map _).map Campaign.id = _
  rw [List.map_map]
  apply List.map_congr_left
  intro a _
  by_cases h : (a.id == cid2) = true <;> simp [Function.comp, h]

theorem invall_createPost {s : Storage} {ins : InsertPost} {now : Int} (h : InvAll s)
    (hst : ins.status ≠ "posted")
    (hsched : ins.status = "scheduled" → ins.scheduledFor ≠ none) :
    InvAll (s.createPost ins now).fst := by
  intro q hq
  rcases mem_createPost_elim hq with hmem | hnew
  · exact h q hmem
  · have hq1 : q.status = ins.status := by rw [hnew]; rfl
    have hq2 : q.scheduledFor = ins.scheduledFor := by rw [hnew]; rfl
    have hq3 : q.postedAt = none := by rw [hnew]; rfl
    refine ⟨?_, ?_, ?_⟩
    · intro hs
      rw [hq2]
      apply hsched
      rw [← hq1]
      exact hs
    · intro hp
      rw [hq1] at hp
      exact absurd hp hst
    · intro hpa
      exact absurd hq3 hpa

theorem pickNewest_mem : ∀ {l : List Post} {p : Post}, pickNewest l = some p → p ∈ l := by
  intro l
  induction l with
  | nil =>
    intro p h
    cases h
  | cons a t ih =>
    intro p h
    unfold pickNewest at h
    cases hpn : pickNewest t with
    | none =>
      rw [hpn] at h
      have : a = p := Option.some.inj h
      exact this ▸ List.mem_cons_self a t
    | some q =>
      rw [hpn] at h
      dsimp only at h
      by_cases hc : q.createdAt > a.createdAt
      · rw [if_pos hc] at h
        have : q = p := Option.some.inj h
        exact List.mem_cons_of_mem a (this ▸ ih hpn)
      · rw [if_neg hc] at h
        have : a = p := Option.some.inj h
        exact this ▸ List.mem_cons_self a t

/-! ### Further enrichment facts -/

theorem ptd_none_draft (c : Campaign) : pnpTargetDecision c none = ("draft", none) := by
  unfold pnpTargetDecision
  simp

theorem pnp_noNewPosted (env : Env) (post : Post) (c : Campaign) (target : Option Int)
    (s : Storage) : NoNewPosted s (processNewPost env post c target s).fst := by
  apply processNewPost_elim env post c target s (P := fun r => NoNewPosted s r.fst)
  · unfold pnpRelevanceFail
    dsimp only
    refine nnp_trans (nnp_updatePost ?_) (nnp_of_posts_eq (posts_createLog _ _))
    intro st2 h2
    have h3 : "failed" = st2 := Option.some.inj h2
    rw [← h3]
    decide
  · intro s' hlog
    unfold pnpCaptionFail
    dsimp only
    refine nnp_trans (nnp_of_posts_eq hlog.1)
      (nnp_trans (nnp_updatePost ?_) (nnp_of_posts_eq (posts_createLog _ _)))
    intro st2 h2
    have h3 : "failed" = st2 := Option.some.inj h2
    rw [← h3]
    decide
  · intro s' cap hlog
    unfold pnpFinish
    dsimp only
    have h1 : LogOnly s' (imageFallback env c post cap.imageFallbackConcepts
        (imageLoop env c post 1 MAX_RETRIES s').snd
        (imageLoop env c post 1 MAX_RETRIES s').fst).fst :=
      logOnly_trans (imageLoop_logOnly env c post _ _ _) (imageFallback_logOnly env c post _ _ _)
    have hu : ∀ st2, (some (pnpTargetDecision c target).fst : Option String) = some st2 →
        st2 ≠ "posted" := by
      intro st2 h2
      rw [← Option.some.inj h2]
      exact ptd_fst_ne_posted c target
    split
    · exact nnp_trans (nnp_of_posts_eq hlog.1)
        (nnp_trans (nnp_of_posts_eq h1.1)
          (nnp_trans (nnp_updatePost hu) (nnp_of_posts_eq (posts_createLog _ _))))
    · exact nnp_trans (nnp_of_posts_eq hlog.1)
        (nnp_trans (nnp_of_posts_eq h1.1) (nnp_updatePost hu))

theorem pnp_nns_target_none (env : Env) (post : Post) (c : Campaign) (s : Storage)
    (cid : Nat) : NoNewSched s (processNewPost env post c none s).fst cid := by
  apply processNewPost_elim env post c none s (P := fun r => NoNewSched s r.fst cid)
  · unfold pnpRelevanceFail
    dsimp only
    refine nns_trans (nns_updatePost_nonsched ?_) (nns_of_logOnly (logOnly_createLog _ _))
    intro h2
    exact absurd (Option.some.inj h2) (by decide)
  · intro s' hlog
    unfold pnpCaptionFail
    dsimp only
    refine nns_trans (nns_of_logOnly hlog)
      (nns_trans (nns_updatePost_nonsched ?_) (nns_of_logOnly (logOnly_createLog _ _)))
    intro h2
    exact absurd (Option.some.inj h2) (by decide)
  · intro s' cap hlog
    unfold pnpFinish
    dsimp only
    have h1 : LogOnly s' (imageFallback env c post cap.imageFallbackConcepts
        (imageLoop env c post 1 MAX_RETRIES s').snd
        (imageLoop env c post 1 MAX_RETRIES s').fst).fst :=
      logOnly_trans (imageLoop_logOnly env c post _ _ _) (imageFallback_logOnly env c post _ _ _)
    have hu : (some (pnpTargetDecision c none).fst : Option String) ≠ some "scheduled" := by
      intro h2
      have h3 := Option.some.inj h2
      rw [ptd_none_draft] at h3
      exact absurd h3 (by decide)
    split
    · exact nns_trans (nns_of_logOnly hlog)
        (nns_trans (nns_of_logOnly h1)
          (nns_trans (nns_updatePost_nonsched hu) (nns_of_logOnly (logOnly_createLog _ _))))
    · exact nns_trans (nns_of_logOnly hlog)
        (nns_trans (nns_of_logOnly h1) (nns_updatePost_nonsched hu))

theorem pnp_nns_otherPost (env : Env) (post : Post) (c : Campaign) (target : Option Int)
    (s : Storage) (cid : Nat)
    (h : ∀ q ∈ s.posts, q.id = post.id → q.campaignId ≠ cid) :
    NoNewSched s (processNewPost env post c target s).fst cid := by
  apply processNewPost_elim env post c target s (P := fun r => NoNewSched s r.fst cid)
  · unfold pnpRelevanceFail
    dsimp only
    exact nns_trans (nns_updatePost_otherCampaign h) (nns_of_logOnly (logOnly_createLog _ _))
  · intro s' hlog
    unfold pnpCaptionFail
    dsimp only
    have h' : ∀ q ∈ s'.posts, q.id = post.id → q.campaignId ≠ cid := by
      intro q hq
      apply h
      rw [← hlog.1]
      exact hq
    exact nns_trans (nns_of_logOnly hlog)
      (nns_trans (nns_updatePost_otherCampaign h') (nns_of_logOnly (logOnly_createLog _ _)))
  · intro s' cap hlog
    unfold pnpFinish
    dsimp only
    have h1 : LogOnly s' (imageFallback env c post cap.imageFallbackConcepts
        (imageLoop env c post 1 MAX_RETRIES s').snd
        (imageLoop env c post 1 MAX_RETRIES s').fst).fst :=
      logOnly_trans (imageLoop_logOnly env c post _ _ _) (imageFallback_logOnly env c post _ _ _)
    have h' : ∀ q ∈ (imageFallback env c post cap.imageFallbackConcepts
        (imageLoop env c post 1 MAX_RETRIES s').snd
        (imageLoop env c post 1 MAX_RETRIES s').fst).fst.posts,
        q.id = post.id → q.campaignId ≠ cid := by
      intro q hq
      apply h
      rw [← hlog.1, ← h1.1]
      exact hq
    split
    · exact nns_trans (nns_of_logOnly hlog)
        (nns_trans (nns_of_logOnly h1)
          (nns_trans (nns_updatePost_otherCampaign h') (nns_of_logOnly (logOnly_createLog _ _))))
    · exact nns_trans (nns_of_logOnly hlog)
        (nns_trans (nns_of_logOnly h1) (nns_updatePost_otherCampaign h'))

theorem pnp_ok_status (env : Env) (post : Post) (c : Campaign) (target : Option Int)
    (s : Storage) (hsome : (s.getPost post.id).isSome = true)
    (hok : (processNewPost env post c target s).snd = Except.ok ()) :
    statusOf (processNewPost env post c target s).fst post.id
      = some (pnpTargetDecision c target).fst := by
  revert hok
  apply processNewPost_elim env post c target s
    (P := fun r => r.snd = Except.ok () →
      statusOf r.fst post.id = some (pnpTargetDecision c target).fst)
  · intro h2
    exact absurd h2 (by simp [pnpRelevanceFail])
  · intro s' _ h2
    exact absurd h2 (by simp [pnpCaptionFail])
  · intro s' cap hlog _
    unfold pnpFinish
    dsimp only
    have h1 : LogOnly s' (imageFallback env c post cap.imageFallbackConcepts
        (imageLoop env c post 1 MAX_RETRIES s').snd
        (imageLoop env c post 1 MAX_RETRIES s').fst).fst :=
      logOnly_trans (imageLoop_logOnly env c post _ _ _) (imageFallback_logOnly env c post _ _ _)
    have hgetfb : (imageFallback env c post cap.imageFallbackConcepts
        (imageLoop env c post 1 MAX_RETRIES s').snd
        (imageLoop env c post 1 MAX_RETRIES s').fst).fst.getPost post.id = s.getPost post.id := by
      rw [getPost_logOnly h1, getPost_logOnly hlog]
    obtain ⟨q, hq⟩ := Option.isSome_iff_exists.mp hsome
    split
    · unfold statusOf
      rw [getPost_createLog, getPost_updatePost_self, hgetfb, hq]
      rfl
    · unfold statusOf
      rw [getPost_updatePost_self, hgetfb, hq]
      rfl

/-! ### Phase preservation -/

theorem preserves_refl (cid : Nat) (s : Storage) (hwf : WFPosts s) (hinv : InvAll s) :
    Preserves cid s s :=
  ⟨hwf, hinv, nns_refl s cid, rfl⟩

theorem preserves_trans {cid : Nat} {s0 s1 s2 : Storage} (h01 : Preserves cid s0 s1)
    (h12 : Preserves cid s1 s2) : Preserves cid s0 s2 :=
  ⟨h12.1, h12.2.1, nns_trans h01.2.2.1 h12.2.2.1, h12.2.2.2.trans h01.2.2.2⟩

theorem ingestArticles_master (cid2 : Nat) (now : Int) (cid : Nat) :
    ∀ (arts : List Article) (s : Storage) (r : FeedResult),
      WFPosts s → InvAll s →
      Preserves cid s (ingestArticles cid2 now arts s r).fst := by
  intro arts
  induction arts with
  | nil =>
    intro s r hwf hinv
    exact preserves_refl cid s hwf hinv
  | cons a rest ih =>
    intro s r hwf hinv
    unfold ingestArticles
    split
    · dsimp only
      refine preserves_trans
        ⟨wf_createPost _ now hwf,
         invall_createPost hinv (by show ("draft" : String) ≠ "posted"; decide)
           (fun h => absurd (show ("draft" : String) = "scheduled" from h) (by decide)),
         nns_createPost (by show ("draft" : String) ≠ "scheduled"; decide), rfl⟩
        (ih _ _ (wf_createPost _ now hwf)
          (invall_createPost hinv (by show ("draft" : String) ≠ "posted"; decide)
            (fun h => absurd (show ("draft" : String) = "scheduled" from h) (by decide))))
    · exact ih s r hwf hinv

theorem ingestUrls_master (env : Env) (cid2 : Nat) (now : Int) (cid : Nat) :
    ∀ (urls : List String) (s : Storage) (r : FeedResult),
      WFPosts s → InvAll s →
      Preserves cid s (ingestUrls env cid2 now urls s r).fst := by
  intro urls
  induction urls with
  | nil =>
    intro s r hwf hinv
    exact preserves_refl cid s hwf hinv
  | cons url rest ih =>
    intro s r hwf hinv
    unfold ingestUrls
    split
    · exact ih s r hwf hinv
    · cases hf : env.feeds url with
      | error e =>
        exact ih s _ hwf hinv
      | ok articles =>
        dsimp only
        have hart := ingestArticles_master cid2 now cid (articles.take 30) s
          { r with fetched := r.fetched + (articles.take 30).length } hwf hinv
        exact preserves_trans hart (ih _ _ hart.1 hart.2.1)

theorem processCampaignFeeds_master (env : Env) (cid2 : Nat) (target : Option Int)
    (now : Int) (s : Storage) (cid : Nat) (hwf : WFPosts s) (hinv : InvAll s) :
    Preserves cid s (processCampaignFeeds env cid2 target now s).fst := by
  unfold processCampaignFeeds
  cases hc : s.getCampaign cid2 with
  | none => exact preserves_refl cid s hwf hinv
  | some campaign =>
    dsimp only
    have hurls := ingestUrls_master env cid2 now cid campaign.rssUrls s {} hwf hinv
    split
    · refine preserves_trans hurls
        ⟨wf_updateCampaign cid2 now hurls.1,
         invall_of_posts_eq (posts_updateCampaign _ cid2 now) hurls.2.1,
         nns_updateCampaign _ cid2 now cid,
         campIds_updateCampaign _ cid2 now⟩
    · exact hurls

theorem prepFilter_not_posted {windowEnd : Int} {p : Post}
    (h : prepFilter windowEnd p = true) : p.status ≠ "posted" := by
  intro habs
  unfold prepFilter at h
  rw [habs] at h
  have hc : (("posted" != "approved") && ("posted" != "scheduled")) = true := by decide
  rw [if_pos hc] at h
  exact absurd h (by decide)

theorem prepPosts_master (env : Env) (c : Campaign) (cid : Nat) :
    ∀ (L : List Post) (acc : Nat) (s : Storage),
      WFPosts s → InvAll s →
      (∀ r ∈ L, statusOf s r.id ≠ some "posted") →
      Preserves cid s (prepPosts env c L acc s).fst ∧
        NoNewPosted s (prepPosts env c L acc s).fst := by
  intro L
  induction L with
  | nil =>
    intro acc s hwf hinv _
    exact ⟨preserves_refl cid s hwf hinv, nnp_refl s⟩
  | cons p rest ih =>
    intro acc s hwf hinv hnp
    unfold prepPosts
    rcases hres : processNewPost env p c none s with ⟨s1, r⟩
    have hfst : (processNewPost env p c none s).fst = s1 := by rw [hres]
    have hwf1 : WFPosts s1 := hfst ▸ pnp_wf env p c none s hwf
    have hshape1 : ShapeEq s s1 := hfst ▸ pnp_shapeEq env p c none s
    have hinv1 : InvAll s1 := by
      have hgood : ∀ q ∈ s.posts, q.id = p.id → q.status ≠ "posted" := by
        intro q hq hqid habs
        apply hnp p (List.mem_cons_self _ _)
        have hg : s.getPost p.id = some q := by
          rw [← hqid]
          exact getPost_of_mem hwf hq
        rw [statusOf_eq_of_getPost hg, habs]
      exact hfst ▸ pnp_invall env p c none s hinv hgood
    have hnns1 : NoNewSched s s1 cid := hfst ▸ pnp_nns_target_none env p c s cid
    have hnnp1 : NoNewPosted s s1 := hfst ▸ pnp_noNewPosted env p c none s
    have hpres1 : Preserves cid s s1 := ⟨hwf1, hinv1, hnns1, by rw [hshape1.2.1]⟩
    have hnp1 : ∀ r2 ∈ rest, statusOf s1 r2.id ≠ some "posted" := by
      intro r2 hr2 habs
      unfold statusOf at habs
      cases hg1 : s1.getPost r2.id with
      | none =>
        rw [hg1] at habs
        simp at habs
      | some q1 =>
        rw [hg1] at habs
        have hq1 : q1.status = "posted" := Option.some.inj habs
        obtain ⟨p0, hp0, hid0, hs0⟩ := hnnp1 q1 (getPost_mem hg1).1 hq1
        apply hnp r2 (List.mem_cons_of_mem _ hr2)
        have hg0 : s.getPost r2.id = some p0 := by
          rw [← (getPost_mem hg1).2, ← hid0]
          exact getPost_of_mem hwf hp0
        rw [statusOf_eq_of_getPost hg0, hs0]
    cases r with
    | ok u =>
      cases u
      have hrest := ih (acc + 1) s1 hwf1 hinv1 hnp1
      exact ⟨preserves_trans hpres1 hrest.1, nnp_trans hnnp1 hrest.2⟩
    | error e =>
      have hrest := ih acc s1 hwf1 hinv1 hnp1
      exact ⟨preserves_trans hpres1 hrest.1, nnp_trans hnnp1 hrest.2⟩

theorem prepCampaigns_master (env : Env) (now : Int) (maxPosts windowMinutes : Nat)
    (cid : Nat) :
    ∀ (L : List Campaign) (acc : Nat) (s : Storage),
      WFPosts s → InvAll s →
      Preserves cid s (prepCampaigns env now maxPosts windowMinutes L acc s).fst := by
  intro L
  induction L with
  | nil =>
    intro acc s hwf hinv
    exact preserves_refl cid s hwf hinv
  | cons c rest ih =>
    intro acc s hwf hinv
    unfold prepCampaigns
    split
    · exact preserves_refl cid s hwf hinv
    · split
      · exact ih acc s hwf hinv
      · dsimp only
        have hpre : ∀ r ∈ ((s.getPostsByCampaign c.id).filter
            (prepFilter (now + (windowMinutes : Int) * msPerMinute))).take (maxPosts - acc),
            statusOf s r.id ≠ some "posted" := by
          intro r hr habs
          have hr1 : r ∈ (s.getPostsByCampaign c.id).filter
              (prepFilter (now + (windowMinutes : Int) * msPerMinute)) :=
            List.mem_of_mem_take hr
          have hrmem : r ∈ s.posts := (List.mem_filter.mp (List.mem_filter.mp hr1).1).1
          have hrfil := (List.mem_filter.mp hr1).2
          have hst := prepFilter_not_posted hrfil
          have hg : s.getPost r.id = some r := getPost_of_mem hwf hrmem
          rw [statusOf_eq_of_getPost hg] at habs
          exact hst (Option.some.inj habs)
        have hin := prepPosts_master env c cid _ acc s hwf hinv hpre
        exact preserves_trans hin.1 (ih _ _ hin.1.1 hin.1.2.1)

theorem cleanup_preserves (now : Int) (st : SchedState) (s : Storage) (cid : Nat)
    (hwf : WFPosts s) (hinv : InvAll s) :
    Preserves cid s (cleanupPhase now st s).snd := by
  unfold cleanupPhase runDailyCleanup
  have hdel : ∀ (s2 : Storage) (days : Nat), WFPosts s2 → InvAll s2 →
      Preserves cid s2 (s2.deleteOldPublishedPosts days now) := by
    intro s2 days hwf2 hinv2
    have hsub : (s2.deleteOldPublishedPosts days now).posts.Sublist s2.posts :=
      List.filter_sublist _
    exact ⟨wf_sublist_posts hsub rfl hwf2,
      fun p hp => hinv2 p (hsub.subset hp),
      nns_of_mem_subset (fun p hp => hsub.subset hp), rfl⟩
  have hdraft : ∀ (s2 : Storage) (days : Nat), WFPosts s2 → InvAll s2 →
      Preserves cid s2 (s2.deleteOldDrafts days now) := by
    intro s2 days hwf2 hinv2
    have hsub : (s2.deleteOldDrafts days now).posts.Sublist s2.posts :=
      List.filter_sublist _
    exact ⟨wf_sublist_posts hsub rfl hwf2,
      fun p hp => hinv2 p (hsub.subset hp),
      nns_of_mem_subset (fun p hp => hsub.subset hp), rfl⟩
  split
  · exact hdraft s 7 hwf hinv
  · dsimp only
    have h1 := hdel s OLD_POST_DAYS hwf hinv
    exact preserves_trans h1 (hdraft _ 7 h1.1 h1.2.1)

theorem cansp_master (env : Env) (now : Int) (c2 : Campaign) (s : Storage) (cid : Nat)
    (hwf : WFPosts s) (hinv : InvAll s) (hne : c2.id ≠ cid) :
    Preserves cid s (checkAndScheduleNextPost env now c2 s).fst := by
  unfold checkAndScheduleNextPost
  split
  · exact preserves_refl cid s hwf hinv
  next next2 hn =>
    dsimp only
    split
    · exact preserves_refl cid s hwf hinv
    · split
      · exact preserves_refl cid s hwf hinv
      · split
        · exact preserves_refl cid s hwf hinv
        · split
          next nd hpick =>
            dsimp only
            have hndfil := pickNewest_mem hpick
            have hndmem : nd ∈ s.posts := (List.mem_filter.mp (List.mem_filter.mp hndfil).1).1
            have hndc : nd.campaignId = c2.id := by
              have := (List.mem_filter.mp (List.mem_filter.mp hndfil).1).2
              simpa using this
            have hndst : nd.status = "draft" := by
              have := (List.mem_filter.mp hndfil).2
              simp only [Bool.and_eq_true, beq_iff_eq] at this
              exact this.1
            have hother : ∀ q ∈ s.posts, q.id = nd.id → q.campaignId ≠ cid := by
              intro q hq hqid
              have hqnd : q = nd := List.inj_on_of_nodup_map hwf.1 hq hndmem hqid
              rw [hqnd, hndc]
              exact hne
            have hgood : ∀ q ∈ s.posts, q.id = nd.id → StatusInv (applyPostUpdate q
                { status := some "scheduled", scheduledFor := some (some next2) }) := by
              intro q hq hqid
              have hqnd : q = nd := List.inj_on_of_nodup_map hwf.1 hq hndmem hqid
              have hqpa : q.postedAt = none := by
                by_cases hpa : q.postedAt = none
                · exact hpa
                · have hpost := (hinv q hq).2.mpr hpa
                  rw [hqnd, hndst] at hpost
                  exact absurd hpost (by decide)
              exact statusInv_dec_update rfl rfl rfl hqpa (by decide) (fun _ => by simp)
            exact ⟨wf_logOnly (logOnly_createLog _ _) (wf_updatePost nd.id _ hwf),
              invall_of_posts_eq (posts_createLog _ _) (invall_updatePost hinv hgood),
              nns_trans (nns_updatePost_otherCampaign hother)
                (nns_of_logOnly (logOnly_createLog _ _)),
              rfl⟩
          next hpick =>
            split
            next nu hpick2 =>
              have hnufil := pickNewest_mem hpick2
              have hnumem : nu ∈ s.posts := (List.mem_filter.mp (List.mem_filter.mp hnufil).1).1
              have hnuc : nu.campaignId = c2.id := by
                have := (List.mem_filter.mp (List.mem_filter.mp hnufil).1).2
                simpa using this
              have hnust : nu.status = "draft" := by
                have := (List.mem_filter.mp hnufil).2
                simp only [Bool.and_eq_true, beq_iff_eq] at this
                exact this.1
              have hother : ∀ q ∈ s.posts, q.id = nu.id → q.campaignId ≠ cid := by
                intro q hq hqid
                have hqnd : q = nu := List.inj_on_of_nodup_map hwf.1 hq hnumem hqid
                rw [hqnd, hnuc]
                exact hne
              have hnp : ∀ q ∈ s.posts, q.id = nu.id → q.status ≠ "posted" := by
                intro q hq hqid
                have hqnd : q = nu := List.inj_on_of_nodup_map hwf.1 hq hnumem hqid
                rw [hqnd, hnust]
                decide
              have hpres : Preserves cid s (processNewPost env nu c2 (some next2) s).fst :=
                ⟨pnp_wf env nu c2 (some next2) s hwf,
                 pnp_invall env nu c2 (some next2) s hinv hnp,
                 pnp_nns_otherPost env nu c2 (some next2) s cid hother,
                 by rw [(pnp_shapeEq env nu c2 (some next2) s).2.1]⟩
              split
              next s1 u hres =>
                rw [hres] at hpres
                exact hpres
              next s1 e hres =>
                rw [hres] at hpres
                exact hpres
            next hpick2 =>
              have hpres : Preserves cid s
                  (processCampaignFeeds env c2.id (some next2) now s).fst :=
                processCampaignFeeds_master env c2.id (some next2) now s cid hwf hinv
              split
              next s1 e hfeed =>
                rw [hfeed] at hpres
                exact hpres
              next s1 rssResult hfeed =>
                rw [hfeed] at hpres
                have hguard : (rssResult.new > 0 && rssResult.articles.isSome &&
                    !(rssResult.articles.getD []).isEmpty) = false := by
                  simp [FeedResult.articles]
                have hng : ¬((rssResult.new > 0 && rssResult.articles.isSome &&
                    !(rssResult.articles.getD []).isEmpty) = true) := by
                  rw [hguard]
                  simp
                rw [if_neg hng]
                exact hpres

theorem cycleCampaignPhase_master (env : Env) (now : Int) (cid : Nat) :
    ∀ (L : List Campaign) (s : Storage),
      WFPosts s → InvAll s →
      (∀ c2 ∈ L, c2.autoPublish = true → c2.id ≠ cid) →
      Preserves cid s (cycleCampaignPhase env now L s) := by
  intro L
  induction L with
  | nil =>
    intro s hwf hinv _
    exact preserves_refl cid s hwf hinv
  | cons c rest ih =>
    intro s hwf hinv hL
    unfold cycleCampaignPhase
    split
    next hauto =>
      have h1 := cansp_master env now c s cid hwf hinv (hL c (List.mem_cons_self _ _) hauto)
      exact preserves_trans h1
        (ih _ h1.1 h1.2.1 (fun c3 hc3 => hL c3 (List.mem_cons_of_mem _ hc3)))
    next hauto =>
      split
      · split
        next s1 e hfeed =>
          have hm := processCampaignFeeds_master env c.id none now s cid hwf hinv
          rw [hfeed] at hm
          exact preserves_trans hm
            (ih _ hm.1 hm.2.1 (fun c3 hc3 => hL c3 (List.mem_cons_of_mem _ hc3)))
        next s1 rr hfeed =>
          have hm := processCampaignFeeds_master env c.id none now s cid hwf hinv
          rw [hfeed] at hm
          have h2 : Preserves cid s1 (s1.updateCampaignLastRssFetchAt c.id now) :=
            ⟨wf_updateCampaign c.id now hm.1,
             invall_of_posts_eq (posts_updateCampaign _ _ _) hm.2.1,
             nns_updateCampaign _ _ _ _,
             campIds_updateCampaign _ _ _⟩
          have h12 := preserves_trans hm h2
          exact preserves_trans h12
            (ih _ h12.1 h12.2.1 (fun c3 hc3 => hL c3 (List.mem_cons_of_mem _ hc3)))
      · exact ih s hwf hinv (fun c3 hc3 => hL c3 (List.mem_cons_of_mem _ hc3))

theorem processNextPosts_master (env : Env) (now : Int) (maxPosts windowMinutes : Nat)
    (s : Storage) (cid : Nat) (hwf : WFPosts s) (hinv : InvAll s) :
    Preserves cid s (processNextPosts env now maxPosts windowMinutes s).fst := by
  unfold processNextPosts
  exact prepCampaigns_master env now maxPosts windowMinutes cid s.getActiveCampaigns 0 s hwf hinv

theorem publishScheduledPosts_preserves (env : Env) (now : Int) (s : Storage) (cid : Nat)
    (hwf : WFPosts s) (hinv : InvAll s) (hcamps : (s.campaigns.map Campaign.id).Nodup) :
    Preserves cid s (publishScheduledPosts env now s).storage := by
  have hshape := publishScheduledPosts_shapeEq env now s hwf hcamps
  exact ⟨wf_of_shapeEq hshape hwf,
    publishScheduledPosts_invall env now s hwf hcamps hinv,
    publishScheduledPosts_nns env now s hwf hcamps cid,
    by rw [hshape.2.1]⟩

theorem cycleBody_preserves (env : Env) (now : Int) (st : SchedState) (s : Storage)
    (cid : Nat) (hwf : WFPosts s) (hinv : InvAll s)
    (hcamps : (s.campaigns.map Campaign.id).Nodup)
    (hL : ∀ c2 ∈ s.getActiveCampaigns, c2.autoPublish = true → c2.id ≠ cid) :
    Preserves cid s (runSchedulerCycleBody env now st s).snd := by
  unfold runSchedulerCycleBody
  dsimp only
  have h1 := cycleCampaignPhase_master env now cid s.getActiveCampaigns s hwf hinv hL
  have h2 := processNextPosts_master env now 2 120
    (cycleCampaignPhase env now s.getActiveCampaigns s) cid h1.1 h1.2.1
  have h12 := preserves_trans h1 h2
  have hcamps2 : (((processNextPosts env now 2 120
      (cycleCampaignPhase env now s.getActiveCampaigns s)).fst).campaigns.map
      Campaign.id).Nodup := by
    rw [h12.2.2.2]
    exact hcamps
  have h3 := publishScheduledPosts_preserves env now
    (processNextPosts env now 2 120 (cycleCampaignPhase env now s.getActiveCampaigns s)).fst
    cid h12.1 h12.2.1 hcamps2
  have h123 := preserves_trans h12 h3
  have h4 := cleanup_preserves now { st with lastCycleTime := some now }
    ((publishScheduledPosts env now (processNextPosts env now 2 120
      (cycleCampaignPhase env now s.getActiveCampaigns s)).fst).storage) cid h123.1 h123.2.1
  exact preserves_trans h123 h4

theorem cycle_preserves (env : Env) (now : Int) (st : SchedState) (s : Storage) (cid : Nat)
    (hwf : WFPosts s) (hinv : InvAll s) (hcamps : (s.campaigns.map Campaign.id).Nodup)
    (hL : ∀ c2 ∈ s.getActiveCampaigns, c2.autoPublish = true → c2.id ≠ cid) :
    Preserves cid s (runSchedulerCycle env now st s).snd := by
  unfold runSchedulerCycle
  cases hlast : st.lastCycleTime with
  | none => exact cycleBody_preserves env now st s cid hwf hinv hcamps hL
  | some last =>
    dsimp only
    split
    · exact preserves_refl cid s hwf hinv
    · exact cycleBody_preserves env now st s cid hwf hinv hcamps hL

/-! ### No-deletion facts: every phase before the cleanup block keeps
every stored post's id -/

theorem ndel_refl (s : Storage) : NoDelete s s :=
  fun p hp => ⟨p, hp, rfl⟩

theorem ndel_trans {s1 s2 s3 : Storage} (h12 : NoDelete s1 s2) (h23 : NoDelete s2 s3) :
    NoDelete s1 s3 := by
  intro p1 hp1
  obtain ⟨p2, hp2, hid2⟩ := h12 p1 hp1
  obtain ⟨p3, hp3, hid3⟩ := h23 p2 hp2
  exact ⟨p3, hp3, hid3.trans hid2⟩

theorem ndel_of_posts_eq {s1 s2 : Storage} (h : s2.posts = s1.posts) : NoDelete s1 s2 := by
  intro p hp
  refine ⟨p, ?_, rfl⟩
  rw [h]
  exact hp

theorem ndel_of_shapeEq {s1 s2 : Storage} (h : ShapeEq s1 s2) : NoDelete s1 s2 := by
  intro p0 hp0
  have hpair : (p0.id, p0.campaignId) ∈ s2.posts.map (fun p => (p.id, p.campaignId)) := by
    rw [h.1]
    exact List.mem_map_of_mem _ hp0
  obtain ⟨p1, hp1, heq⟩ := List.mem_map.mp hpair
  exact ⟨p1, hp1, congrArg Prod.fst heq⟩

theorem ndel_createPost (s : Storage) (ins : InsertPost) (now : Int) :
    NoDelete s (s.createPost ins now).fst := by
  intro p hp
  refine ⟨p, ?_, rfl⟩
  rw [createPost_posts]
  exact List.mem_append.mpr (Or.inl hp)

theorem pnp_ndel (env : Env) (post : Post) (c : Campaign) (target : Option Int)
    (s : Storage) : NoDelete s (processNewPost env post c target s).fst :=
  ndel_of_shapeEq (pnp_shapeEq env post c target s)

theorem runCandidates_ndel (env : Env) (now : Int) (c : Campaign) :
    ∀ (K : List Post) (st : PassState),
      NoDelete st.storage (runCandidates env now c K st).storage := by
  intro K
  induction K with
  | nil =>
    intro st
    exact ndel_refl _
  | cons p K' ih =>
    intro st
    unfold runCandidates
    split
    · exact ih st
    · split
      · exact ih st
      next current hget =>
        split
        · exact ih st
        · dsimp only
          split
          · exact ndel_trans (ndel_of_shapeEq (publishPost_shapeEq env now p c st.storage))
              (ih ⟨(publishPost env now p c st.storage).storage, st.published + 1, st.failed,
                st.publishedIds ++ [p.id], st.attemptedIds ++ [p.id]⟩)
          · exact ndel_trans (ndel_of_shapeEq (publishPost_shapeEq env now p c st.storage))
              (ih ⟨(publishPost env now p c st.storage).storage, st.published, st.failed + 1,
                st.publishedIds, st.attemptedIds ++ [p.id]⟩)

theorem runCampaigns_ndel (env : Env) (now : Int) :
    ∀ (L : List Campaign) (st : PassState),
      NoDelete st.storage (runCampaigns env now L st).storage := by
  intro L
  induction L with
  | nil =>
    intro st
    exact ndel_refl _
  | cons c rest ih =>
    intro st
    unfold runCampaigns
    exact ndel_trans (runCandidates_ndel env now c _ st) (ih _)

theorem publishScheduledPosts_ndel (env : Env) (now : Int) (s : Storage) :
    NoDelete s (publishScheduledPosts env now s).storage :=
  runCampaigns_ndel env now s.getActiveCampaigns ⟨s, 0, 0, [], []⟩

theorem ingestArticles_ndel (cid2 : Nat) (now : Int) :
    ∀ (arts : List Article) (s : Storage) (r : FeedResult),
      NoDelete s (ingestArticles cid2 now arts s r).fst := by
  intro arts
  induction arts with
  | nil =>
    intro s r
    exact ndel_refl s
  | cons a rest ih =>
    intro s r
    unfold ingestArticles
    split
    · exact ndel_trans (ndel_createPost s _ now) (ih _ _)
    · exact ih s r

theorem ingestUrls_ndel (env : Env) (cid2 : Nat) (now : Int) :
    ∀ (urls : List String) (s : Storage) (r : FeedResult),
      NoDelete s (ingestUrls env cid2 now urls s r).fst := by
  intro urls
  induction urls with
  | nil =>
    intro s r
    exact ndel_refl s
  | cons url rest ih =>
    intro s r
    unfold ingestUrls
    split
    · exact ih s r
    · cases hf : env.feeds url with
      | error e => exact ih s _
      | ok articles =>
        dsimp only
        exact ndel_trans (ingestArticles_ndel cid2 now (articles.take 30) s _) (ih _ _)

theorem processCampaignFeeds_ndel (env : Env) (cid2 : Nat) (target : Option Int)
    (now : Int) (s : Storage) :
    NoDelete s (processCampaignFeeds env cid2 target now s).fst := by
  unfold processCampaignFeeds
  cases hc : s.getCampaign cid2 with
  | none => exact ndel_refl s
  | some campaign =>
    dsimp only
    split
    · exact ndel_trans (ingestUrls_ndel env cid2 now campaign.rssUrls s {})
        (ndel_of_posts_eq (posts_updateCampaign _ cid2 now))
    · exact ingestUrls_ndel env cid2 now campaign.rssUrls s {}

theorem cansp_ndel (env : Env) (now : Int) (c2 : Campaign) (s : Storage) :
    NoDelete s (checkAndScheduleNextPost env now c2 s).fst := by
  unfold checkAndScheduleNextPost
  split
  · exact ndel_refl s
  next next2 hn =>
    dsimp only
    split
    · exact ndel_refl s
    · split
      · exact ndel_refl s
      · split
        · exact ndel_refl s
        · split
          next nd hpick =>
            exact ndel_trans (ndel_of_shapeEq (shapeEq_updatePost s nd.id _))
              (ndel_of_posts_eq (posts_createLog _ _))
          next hpick =>
            split
            next nu hpick2 =>
              have hnd := pnp_ndel env nu c2 (some next2) s
              split
              next s1 u hres =>
                rw [hres] at hnd
                exact hnd
              next s1 e hres =>
                rw [hres] at hnd
                exact hnd
            next hpick2 =>
              have hnd := processCampaignFeeds_ndel env c2.id (some next2) now s
              split
              next s1 e hfeed =>
                rw [hfeed] at hnd
                exact hnd
              next s1 rssResult hfeed =>
                rw [hfeed] at hnd
                have hng : ¬((rssResult.new > 0 && rssResult.articles.isSome &&
                    !(rssResult.articles.getD []).isEmpty) = true) := by
                  simp [FeedResult.articles]
                rw [if_neg hng]
                exact hnd

theorem prepPosts_ndel (env : Env) (c : Campaign) :
    ∀ (L : List Post) (acc : Nat) (s : Storage),
      NoDelete s (prepPosts env c L acc s).fst := by
  intro L
  induction L with
  | nil =>
    intro acc s
    exact ndel_refl s
  | cons p rest ih =>
    intro acc s
    unfold prepPosts
    rcases hres : processNewPost env p c none s with ⟨s1, r⟩
    have hnd : NoDelete s s1 := by
      have := pnp_ndel env p c none s
      rw [hres] at this
      exact this
    cases r with
    | ok u =>
      cases u
      exact ndel_trans hnd (ih (acc + 1) s1)
    | error e =>
      exact ndel_trans hnd (ih acc s1)

theorem prepCampaigns_ndel (env : Env) (now : Int) (maxPosts windowMinutes : Nat) :
    ∀ (L : List Campaign) (acc : Nat) (s : Storage),
      NoDelete s (prepCampaigns env now maxPosts windowMinutes L acc s).fst := by
  intro L
  induction L with
  | nil =>
    intro acc s
    exact ndel_refl s
  | cons c rest ih =>
    intro acc s
    unfold prepCampaigns
    split
    · exact ndel_refl s
    · split
      · exact ih acc s
      · dsimp only
        exact ndel_trans (prepPosts_ndel env c _ acc s) (ih _ _)

theorem processNextPosts_ndel (env : Env) (now : Int) (maxPosts windowMinutes : Nat)
    (s : Storage) : NoDelete s (processNextPosts env now maxPosts windowMinutes s).fst := by
  unfold processNextPosts
  exact prepCampaigns_ndel env now maxPosts windowMinutes s.getActiveCampaigns 0 s

theorem cycleCampaignPhase_ndel (env : Env) (now : Int) :
    ∀ (L : List Campaign) (s : Storage),
      NoDelete s (cycleCampaignPhase env now L s) := by
  intro L
  induction L with
  | nil =>
    intro s
    exact ndel_refl s
  | cons c rest ih =>
    intro s
    unfold cycleCampaignPhase
    split
    · exact ndel_trans (cansp_ndel env now c s) (ih _)
    · split
      · split
        next s1 e hfeed =>
          have hnd := processCampaignFeeds_ndel env c.id none now s
          rw [hfeed] at hnd
          exact ndel_trans hnd (ih s1)
        next s1 rr hfeed =>
          have hnd := processCampaignFeeds_ndel env c.id none now s
          rw [hfeed] at hnd
          exact ndel_trans hnd (ndel_trans
            (ndel_of_posts_eq (posts_updateCampaign s1 c.id now)) (ih _))
      · exact ih s

theorem preCleanup_ndel (env : Env) (now : Int) (s : Storage) :
    NoDelete s (preCleanupStorage env now s) := by
  unfold preCleanupStorage
  exact ndel_trans (cycleCampaignPhase_ndel env now s.getActiveCampaigns s)
    (ndel_trans
      (processNextPosts_ndel env now 2 120 (cycleCampaignPhase env now s.getActiveCampaigns s))
      (publishScheduledPosts_ndel env now _))

/-! ## C1 -/

/-- C1: the ingest-then-promote branch of the draft selection policy is
unreachable in the source: processCampaignFeeds returns a record without
an articles field, so the guard reading rssResult.articles never fires.
At the failing input of the claim (active auto-publish campaign, empty
draft pool, next slot 45 minutes ahead, ingestion yielding one new
item), the selection step reports failure instead of success, and the
ingested item is stored as a plain draft instead of a post scheduled for
the target slot. -/
theorem ingestThenPromote_unreachable :
    (checkAndScheduleNextPost env1 now1 campaign1 s1).snd = false ∧
    ((checkAndScheduleNextPost env1 now1 campaign1 s1).fst.posts.map
      (fun p => (p.status, p.scheduledFor, p.campaignId))) = [("draft", none, 1)] :=
  ⟨by decide, by decide⟩

/-! ## C2 -/

/-- C2: getNextScheduledTime evaluates the recurrence in the campaign's
resolved timezone.  For recurrence 30 8 * * * under America/Los_Angeles,
any returned instant renders as wall-clock 08:30 in that zone, lies in
the strict future, converts to 16:30Z during PST and to 15:30Z during
PDT, and depends only on the recurrence and timezone attributes of the
campaign (the model has no ambient process-local zone at all). -/
theorem nextSlot_timezone_correct (c : Campaign) (now t : Int)
    (hcron : c.scheduleCron = some "30 8 * * *")
    (htz : c.scheduleTimezone = some "America/Los_Angeles")
    (hnext : getNextScheduledTime c now = some t) :
    laWallMinuteOfDay t = 510 ∧
    (inLaDst t = false → t.emod msPerDay = 59400000) ∧
    (inLaDst t = true → t.emod msPerDay = 55800000) ∧
    now < t ∧
    (∀ c2 : Campaign, c2.scheduleCron = c.scheduleCron →
      c2.scheduleTimezone = c.scheduleTimezone →
      getNextScheduledTime c2 now = getNextScheduledTime c now) := by
  have hg : getNextScheduledTime c now =
      cronNextMs ⟨30, 8⟩ "America/Los_Angeles" now := by
    unfold getNextScheduledTime
    rw [hcron, htz]
    rfl
  rw [hg] at hnext
  unfold cronNextMs at hnext
  obtain ⟨m, hm, hmt⟩ := Option.map_eq_some'.mp hnext
  obtain ⟨hmatch, hstart⟩ := searchNext_some hm
  subst hmt
  simp only [cronMatchesAt, Bool.and_eq_true, beq_iff_eq] at hmatch
  obtain ⟨hminute, hhour⟩ := hmatch
  have hofftz : tzOffsetMinutes "America/Los_Angeles" (m * msPerMinute)
      = (if inLaDst (m * msPerMinute) then -420 else -480) := by
    unfold tzOffsetMinutes
    rw [if_pos rfl]
  have hM : (m + tzOffsetMinutes "America/Los_Angeles" (m * msPerMinute)).emod 1440 = 510 := by
    have h1 : (m + tzOffsetMinutes "America/Los_Angeles" (m * msPerMinute)) % 1440 % 60 = 30 :=
      hminute
    have h2 : (m + tzOffsetMinutes "America/Los_Angeles" (m * msPerMinute)) % 1440 / 60 = 8 :=
      hhour
    show (m + tzOffsetMinutes "America/Los_Angeles" (m * msPerMinute)) % 1440 = 510
    omega
  have hdivm : (m * msPerMinute).ediv msPerMinute = m := by
    show m * msPerMinute / msPerMinute = m
    unfold msPerMinute
    omega
  have hwall : laWallMinuteOfDay (m * msPerMinute) = 510 := by
    unfold laWallMinuteOfDay
    rw [hdivm]
    exact hM
  refine ⟨hwall, ?_, ?_, ?_, ?_⟩
  · intro hdst
    have hoffv : tzOffsetMinutes "America/Los_Angeles" (m * msPerMinute) = -480 := by
      rw [hofftz, hdst]
      simp
    rw [hoffv] at hM
    have h990 : m % 1440 = 990 := by
      have h' : (m + -480) % 1440 = 510 := hM
      omega
    show m * msPerMinute % msPerDay = 59400000
    unfold msPerMinute msPerDay
    rw [show (86400000 : Int) = 60000 * 1440 by norm_num,
      show m * 60000 = 60000 * m from mul_comm m 60000,
      Int.mul_emod_mul_of_pos _ _ (by norm_num : (0 : Int) < 60000), h990]
    norm_num
  · intro hdst
    have hoffv : tzOffsetMinutes "America/Los_Angeles" (m * msPerMinute) = -420 := by
      rw [hofftz, hdst]
      simp
    rw [hoffv] at hM
    have h930 : m % 1440 = 930 := by
      have h' : (m + -420) % 1440 = 510 := hM
      omega
    show m * msPerMinute % msPerDay = 55800000
    unfold msPerMinute msPerDay
    rw [show (86400000 : Int) = 60000 * 1440 by norm_num,
      show m * 60000 = 60000 * m from mul_comm m 60000,
      Int.mul_emod_mul_of_pos _ _ (by norm_num : (0 : Int) < 60000), h930]
    norm_num
  · have h1 : now < (now.ediv msPerMinute + 1) * msPerMinute := by
      show now < (now / 60000 + 1) * 60000
      omega
    have h2 : (now.ediv msPerMinute + 1) * msPerMinute ≤ m * msPerMinute := by
      apply mul_le_mul_of_nonneg_right hstart
      norm_num [msPerMinute]
    exact lt_of_lt_of_le h1 h2
  · intro c2 h1 h2
    unfold getNextScheduledTime
    rw [h1, h2, hcron, htz]

/-- Witness for C2: at a concrete PST instant the hypotheses hold and
the slot renders as 08:30 wall-clock in Los Angeles. -/
theorem nextSlot_timezone_correct_witness :
    campaign1.scheduleCron = some "30 8 * * *" ∧
    campaign1.scheduleTimezone = some "America/Los_Angeles" ∧
    getNextScheduledTime campaign1 now1 = some slot1 ∧
    laWallMinuteOfDay slot1 = 510 :=
  ⟨rfl, rfl, by decide,
    (nextSlot_timezone_correct campaign1 now1 slot1 rfl rfl (by decide)).1⟩

/-! ## C5 -/

/-- C5: evidence at the failing input.  The PATCH handler applies the
partial update exactly as given: updating the scheduled post7 to status
draft leaves its scheduledFor stamp in place instead of clearing it to
null as the unschedule contract demands. -/
theorem patch_to_draft_keeps_scheduledFor :
    post7.status = "scheduled" ∧ post7.scheduledFor = some slot1 ∧
    ((patchPost s7 7 { status := some "draft" }).fst.getPost 7).map
      (fun p => (p.status, p.scheduledFor)) = some ("draft", some slot1) :=
  ⟨rfl, rfl, by decide⟩

/-! ## C10 -/

/-- C10 counterexample: a cycle with an empty campaign list and a single
nine-day-old draft deletes that draft (through the every-cycle
deleteOldDrafts call), refuting that only aged posted posts are ever
deleted by a scheduler cycle. -/
theorem cycle_deletes_old_draft :
    s9.posts.map Post.status = ["draft"] ∧
    (runSchedulerCycle envBase now1 st9 s9).snd.posts = [] :=
  ⟨by decide, by decide⟩

/-- The cleanup block of a cycle deletes exactly the posted posts older
than 30 days (only when the daily cleanup has not yet run on the UTC day
of now) together with the draft posts older than 7 days; posts of any
other status survive, and campaigns and logs are untouched. -/
theorem cleanup_phase_characterization (now : Int) (st : SchedState) (s : Storage) :
    (cleanupPhase now st s).snd.posts = s.posts.filter (fun p =>
      !((st.lastCleanupDay != some (utcDay now)) && p.status == "posted" &&
          decide (p.postedAt.getD now < now - (30 : Int) * msPerDay)) &&
      !(p.status == "draft" && decide (p.createdAt < now - (7 : Int) * msPerDay))) ∧
    (cleanupPhase now st s).fst.lastCleanupDay = some (utcDay now) ∧
    (st.lastCleanupDay = some (utcDay now) → runDailyCleanup now st s = (st, s)) ∧
    (cleanupPhase now st s).snd.campaigns = s.campaigns ∧
    (cleanupPhase now st s).snd.logs = s.logs := by
  by_cases hday : st.lastCleanupDay = some (utcDay now)
  · have hguard : (st.lastCleanupDay == some (utcDay now)) = true := by
      simp [hday]
    refine ⟨?_, ?_, ?_, ?_, ?_⟩
    · show ((runDailyCleanup now st s).snd.deleteOldDrafts 7 now).posts = _
      unfold runDailyCleanup
      rw [if_pos hguard]
      unfold Storage.deleteOldDrafts
      apply List.filter_congr
      intro p _
      simp [hday, OLD_POST_DAYS]
    · show ((runDailyCleanup now st s).fst).lastCleanupDay = _
      unfold runDailyCleanup
      rw [if_pos hguard, hday]
    · intro _
      unfold runDailyCleanup
      rw [if_pos hguard]
    · show ((runDailyCleanup now st s).snd.deleteOldDrafts 7 now).campaigns = _
      unfold runDailyCleanup
      rw [if_pos hguard]
      rfl
    · show ((runDailyCleanup now st s).snd.deleteOldDrafts 7 now).logs = _
      unfold runDailyCleanup
      rw [if_pos hguard]
      rfl
  · have hguard : (st.lastCleanupDay == some (utcDay now)) = false := by
      simp [hday]
    refine ⟨?_, ?_, ?_, ?_, ?_⟩
    · show ((runDailyCleanup now st s).snd.deleteOldDrafts 7 now).posts = _
      unfold runDailyCleanup
      rw [if_neg (by simp [hguard])]
      unfold Storage.deleteOldDrafts Storage.deleteOldPublishedPosts
      dsimp only
      rw [List.filter_filter]
      apply List.filter_congr
      intro p _
      simp only [OLD_POST_DAYS]
      have hne : (st.lastCleanupDay != some (utcDay now)) = true := by
        simp [hday]
      rw [hne]
      cases hpost : (p.status == "posted") <;> cases hdraft : (p.status == "draft")
      · simp [hpost, hdraft]
      · simp [hpost, hdraft]
      · simp [hpost, hdraft]
      · simp only [beq_iff_eq] at hpost hdraft
        rw [hpost] at hdraft
        exact absurd hdraft (by decide)
    · show ((runDailyCleanup now st s).fst).lastCleanupDay = _
      unfold runDailyCleanup
      rw [if_neg (by simp [hguard])]
    · intro hcontra
      exact absurd hcontra hday
    · show ((runDailyCleanup now st s).snd.deleteOldDrafts 7 now).campaigns = _
      unfold runDailyCleanup
      rw [if_neg (by simp [hguard])]
      rfl
    · show ((runDailyCleanup now st s).snd.deleteOldDrafts 7 now).logs = _
      unfold runDailyCleanup
      rw [if_neg (by simp [hguard])]
      rfl

/-- C10 (amended): the scheduling core deletes posts only through the
cleanup block of a cycle.  A cycle either skips entirely (storage
untouched) or runs its body; the body is exactly the cleanup block
applied to the storage produced by the per-campaign, preparation and
publish phases; those phases delete no post (every stored post keeps a
post with its id); and the cleanup block deletes exactly the posted
posts older than 30 days (only when the daily cleanup has not yet run
on the UTC day of now) together with the draft posts older than 7 days,
leaving campaigns and logs untouched. -/
theorem cycle_deletes_only_in_cleanup (env : Env) (now : Int) (st : SchedState)
    (s : Storage) :
    (runSchedulerCycle env now st s = (st, s) ∨
      runSchedulerCycle env now st s = runSchedulerCycleBody env now st s) ∧
    runSchedulerCycleBody env now st s =
      cleanupPhase now { st with lastCycleTime := some now } (preCleanupStorage env now s) ∧
    NoDelete s (preCleanupStorage env now s) ∧
    (∀ (st2 : SchedState) (s2 : Storage),
      (cleanupPhase now st2 s2).snd.posts = s2.posts.filter (fun p =>
        !((st2.lastCleanupDay != some (utcDay now)) && p.status == "posted" &&
            decide (p.postedAt.getD now < now - (30 : Int) * msPerDay)) &&
        !(p.status == "draft" && decide (p.createdAt < now - (7 : Int) * msPerDay))) ∧
      (cleanupPhase now st2 s2).fst.lastCleanupDay = some (utcDay now) ∧
      (st2.lastCleanupDay = some (utcDay now) → runDailyCleanup now st2 s2 = (st2, s2)) ∧
      (cleanupPhase now st2 s2).snd.campaigns = s2.campaigns ∧
      (cleanupPhase now st2 s2).snd.logs = s2.logs) := by
  refine ⟨?_, rfl, preCleanup_ndel env now s, ?_⟩
  · unfold runSchedulerCycle
    cases st.lastCycleTime with
    | none => exact Or.inr rfl
    | some last =>
      dsimp only
      split
      · exact Or.inl rfl
      · exact Or.inr rfl
  · intro st2 s2
    exact cleanup_phase_characterization now st2 s2

/-- Witness for C10 at concrete inputs: storage s9 holds a single
nine-day-old draft and no campaign, so the pre-cleanup phases keep the
draft, the daily cleanup is skipped (st9 already ran on the day of
now1), and the every-cycle draft cleanup then deletes it. -/
theorem cycle_deletes_only_in_cleanup_witness :
    NoDelete s9 (preCleanupStorage envBase now1 s9) ∧
    st9.lastCleanupDay = some (utcDay now1) ∧
    runDailyCleanup now1 st9 s9 = (st9, s9) ∧
    (cleanupPhase now1 st9 s9).snd.posts = [] ∧
    (preCleanupStorage envBase now1 s9).posts.map Post.id = [9] :=
  ⟨(cycle_deletes_only_in_cleanup envBase now1 st9 s9).2.2.1, rfl,
   ((cycle_deletes_only_in_cleanup envBase now1 st9 s9).2.2.2 st9 s9).2.2.1 rfl,
   by decide, by decide⟩

/-! ## C8 -/

theorem publishLoop_attempts_le (env : Env) (now : Int) (post : Post) (c : Campaign) :
    ∀ (remaining attempts : Nat) (lastError : Option String) (waits : List Int) (s : Storage),
      (publishLoop env now post c attempts remaining lastError waits s).attempts ≤
        attempts + remaining := by
  intro remaining
  induction remaining with
  | zero =>
    intro attempts le w s
    simp [publishLoop, publishFailure]
  | succ n ih =>
    intro attempts le w s
    show (publishLoop env now post c attempts (n + 1) le w s).attempts ≤ _
    simp only [publishLoop]
    cases htr : env.transport post.id (attempts + 1) with
    | none =>
      simp only [publishSuccess]
      omega
    | some e =>
      dsimp only
      by_cases hn : n > 0
      · rw [if_pos hn]
        exact le_trans (ih (attempts + 1) (some e) _ _) (by omega)
      · rw [if_neg hn]
        simp only [publishLoop, publishFailure]
        omega

theorem publishPost_attempts_le (env : Env) (now : Int) (post : Post) (c : Campaign)
    (s : Storage) : (publishPost env now post c s).attempts ≤ 3 := by
  unfold publishPost
  by_cases hcap : (post.generatedCaption.getD "" == "") = true
  · rw [if_pos hcap]
    norm_num
  · rw [if_neg hcap]
    have := publishLoop_attempts_le env now post c MAX_RETRIES 0 none [] s
    simpa [MAX_RETRIES] using this

/-- C8: delivery is attempted at most 3 times; when all three transport
attempts fail, the waits between failed attempts are 5000 ms times the
attempt number, the post transitions to failed with failureReason the
last transport error and retryCount 3, an error log is emitted, and
publishPost rethrows. -/
theorem publish_retry_exhaustion (env : Env) (now : Int) (post : Post) (c : Campaign)
    (s : Storage) (e1 e2 e3 : String)
    (hcap : post.generatedCaption.getD "" ≠ "")
    (h1 : env.transport post.id 1 = some e1)
    (h2 : env.transport post.id 2 = some e2)
    (h3 : env.transport post.id 3 = some e3)
    (he3 : e3 ≠ "") :
    (publishPost env now post c s).attempts = 3 ∧
    (publishPost env now post c s).waitsMs = [5000, 10000] ∧
    (publishPost env now post c s).result =
      Except.error ("Publishing failed after 3 attempts: " ++ e3) ∧
    (∀ q ∈ (publishPost env now post c s).storage.posts, q.id = post.id →
      q.status = "failed" ∧ q.failureReason = some e3 ∧ q.retryCount = 3) ∧
    (∃ l ∈ (publishPost env now post c s).storage.logs,
      l.level = "error" ∧ l.postId = some post.id) ∧
    (∀ (env2 : Env) (s2 : Storage), (publishPost env2 now post c s2).attempts ≤ 3) := by
  have hcap' : (post.generatedCaption.getD "" == "") = false := by
    simp [hcap]
  have hjs : jsOrDefault (some e3) "Max retries exceeded" = e3 := by
    simp [jsOrDefault, he3]
  have h1' : env.transport post.id (0 + 1) = some e1 := h1
  have h2' : env.transport post.id (0 + 1 + 1) = some e2 := h2
  have h3' : env.transport post.id (0 + 1 + 1 + 1) = some e3 := h3
  have hunfold : publishPost env now post c s =
      publishFailure post c (some e3) 3 [5000, 10000]
        ((s.createLog
            { campaignId := c.id, postId := some post.id, level := "warning",
              message := "Publish failed, retrying" }).createLog
          { campaignId := c.id, postId := some post.id, level := "warning",
            message := "Publish failed, retrying" }) := by
    simp only [publishPost, hcap', Bool.false_eq_true, if_false, MAX_RETRIES, publishLoop,
      h1', h2', h3']
    norm_num
  refine ⟨by rw [hunfold]; rfl, by rw [hunfold]; rfl, ?_, ?_, ?_, ?_⟩
  · rw [hunfold]
    show Except.error ("Publishing failed after 3 attempts: " ++
      jsOrDefault (some e3) "Max retries exceeded") = _
    rw [hjs]
  · rw [hunfold]
    intro q hq hid
    have hq' : q ∈ ((((s.createLog _).createLog _).updatePost post.id
        { status := some "failed",
          failureReason := some (some (jsOrDefault (some e3) "Max retries exceeded")),
          retryCount := some 3 }).createLog _).posts := hq
    rw [posts_createLog] at hq'
    rcases mem_updatePost_elim hq' with ⟨p, _, _, hqp⟩ | ⟨_, hne⟩
    · rw [hqp]
      refine ⟨rfl, ?_, rfl⟩
      show some (jsOrDefault (some e3) "Max retries exceeded") = some e3
      rw [hjs]
    · exact absurd hid hne
  · rw [hunfold]
    exact
      ⟨{ campaignId := c.id, postId := some post.id, level := "error",
         message := "Post failed after 3 attempts" },
       List.mem_append.mpr (Or.inr (List.mem_singleton.mpr rfl)), rfl, rfl⟩
  · intro env2 s2
    exact publishPost_attempts_le env2 now post c s2

/-- Witness for C8 at concrete inputs: a captioned scheduled post and a
transport that always fails. -/
theorem publish_retry_exhaustion_witness :
    post7.generatedCaption.getD "" ≠ "" ∧
    envFail.transport post7.id 3 = some "transport down" ∧
    (publishPost envFail now1 post7 campaign1 s7).attempts = 3 :=
  ⟨by decide, rfl,
    (publish_retry_exhaustion envFail now1 post7 campaign1 s7 _ _ _
      (by decide) rfl rfl rfl (by decide)).1⟩

/-! ## C6 -/

/-- C6: when some post of the campaign is scheduled within 30 minutes of
the computed target slot, or posted within 30 minutes of it, the
draft-selection step returns covered (false) and leaves storage
completely unchanged: no post is created or promoted for that slot. -/
theorem slot_tolerance_no_change (env : Env) (now : Int) (c : Campaign) (s : Storage)
    (slot : Int)
    (hauto : c.autoPublish = true)
    (hslot : getNextScheduledTime c now = some slot)
    (hcov : ∃ p ∈ s.posts, p.campaignId = c.id ∧
      ((p.status = "scheduled" ∧ ∃ t, p.scheduledFor = some t ∧ (t - slot).natAbs < 1800000) ∨
       (p.status = "posted" ∧ ∃ t, p.postedAt = some t ∧ (t - slot).natAbs < 1800000))) :
    checkAndScheduleNextPost env now c s = (s, false) := by
  obtain ⟨p, hp, hpc, hcase⟩ := hcov
  unfold checkAndScheduleNextPost
  rw [hslot]
  dsimp only
  split
  · rfl
  next hwin =>
    split
    · rfl
    next hnosched =>
      split
      · rfl
      next hnopub =>
        exfalso
        rcases hcase with ⟨hst, t, hsf, ht⟩ | ⟨hst, t, hpa, ht⟩
        · apply hnosched
          apply List.any_eq_true.mpr
          refine ⟨p, ?_, ?_⟩
          · exact List.mem_filter.mpr ⟨hp, by simp [hpc]⟩
          · rw [hsf, hst]
            simp [ht]
        · apply hnopub
          apply List.any_eq_true.mpr
          refine ⟨p, ?_, ?_⟩
          · exact List.mem_filter.mpr ⟨hp, by simp [hpc]⟩
          · rw [hpa, hst]
            simp [ht]

/-- Witness for C6: campaign1 with the scheduled post7 sitting exactly
at the slot; the step changes nothing. -/
theorem slot_tolerance_no_change_witness :
    getNextScheduledTime campaign1 now1 = some slot1 ∧
    post7.status = "scheduled" ∧ post7.scheduledFor = some slot1 ∧
    checkAndScheduleNextPost env1 now1 campaign1 s7 = (s7, false) :=
  ⟨by decide, rfl, rfl,
    slot_tolerance_no_change env1 now1 campaign1 s7 slot1 rfl (by decide)
      ⟨post7, by decide, rfl, Or.inl ⟨rfl, slot1, rfl, by decide⟩⟩⟩

/-! ## C4 -/

/-- C4 counterexample: a due scheduled post whose delivery fails is
attempted (attemptedIds records it, the failed counter is 1) but its id
is NOT recorded in the pass's in-memory published-set, refuting the
claim that the id is recorded regardless of outcome: the source adds the
id to publishedPostIds only on a successful delivery. -/
theorem publish_failure_not_recorded :
    (publishScheduledPosts envFail slot1 s7).attemptedIds = [7] ∧
    (publishScheduledPosts envFail slot1 s7).failed = 1 ∧
    (publishScheduledPosts envFail slot1 s7).publishedIds = [] :=
  ⟨by decide, by decide, by decide⟩

/-- C4 (amended): in a single publish pass the in-memory published-set
records exactly the successful deliveries - every recorded id was
attempted and its post is now posted, while an attempted id left
unrecorded ended failed (or still scheduled, in the captionless-throw
case); a failed attempt is NOT recorded, contrary to the claim.  The
no-re-attempt conclusion nonetheless holds: no id is attempted twice in
the same pass. -/
theorem publish_set_records_successes (env : Env) (now : Int) (s : Storage)
    (hwf : WFPosts s) (hcamps : (s.campaigns.map Campaign.id).Nodup) :
    (publishScheduledPosts env now s).attemptedIds.Nodup ∧
    (∀ id ∈ (publishScheduledPosts env now s).publishedIds,
      id ∈ (publishScheduledPosts env now s).attemptedIds ∧
      statusOf (publishScheduledPosts env now s).storage id = some "posted") ∧
    (∀ id ∈ (publishScheduledPosts env now s).attemptedIds,
      id ∉ (publishScheduledPosts env now s).publishedIds →
      statusOf (publishScheduledPosts env now s).storage id = some "failed" ∨
      statusOf (publishScheduledPosts env now s).storage id = some "scheduled") := by
  obtain ⟨_, _, hattnd, hpubatt, hpubposted, hattres, _, _, _, _⟩ :=
    publishScheduledPosts_inv env now s hwf hcamps
  exact ⟨hattnd, fun id hid => ⟨hpubatt id hid, hpubposted id hid⟩, hattres⟩

/-- Witness for the amended C4 theorem at a concrete input: the failing
transport against the single due post. -/
theorem publish_set_records_successes_witness :
    WFPosts s7 ∧ (s7.campaigns.map Campaign.id).Nodup ∧
    ((publishScheduledPosts envFail slot1 s7).attemptedIds.Nodup ∧
    (∀ id ∈ (publishScheduledPosts envFail slot1 s7).publishedIds,
      id ∈ (publishScheduledPosts envFail slot1 s7).attemptedIds ∧
      statusOf (publishScheduledPosts envFail slot1 s7).storage id = some "posted") ∧
    (∀ id ∈ (publishScheduledPosts envFail slot1 s7).attemptedIds,
      id ∉ (publishScheduledPosts envFail slot1 s7).publishedIds →
      statusOf (publishScheduledPosts envFail slot1 s7).storage id = some "failed" ∨
      statusOf (publishScheduledPosts envFail slot1 s7).storage id = some "scheduled")) :=
  ⟨by unfold WFPosts; decide, by decide,
    publish_set_records_successes envFail slot1 s7 (by unfold WFPosts; decide) (by decide)⟩

/-! ## C9 -/

/-- C9: the publish executor is idempotent across a repeated invocation:
within one pass no id is attempted twice, and every post delivered by a
first pass has status posted in the storage the pass leaves behind, so a
second invocation on that storage - whose re-fetch check only attempts
posts still scheduled in its input - never attempts that id again. -/
theorem publish_executor_idempotent (ea eb : Env) (na nb : Int) (s : Storage)
    (hwf : WFPosts s) (hcamps : (s.campaigns.map Campaign.id).Nodup) :
    (publishScheduledPosts ea na s).attemptedIds.Nodup ∧
    ∀ id ∈ (publishScheduledPosts ea na s).publishedIds,
      statusOf (publishScheduledPosts ea na s).storage id = some "posted" ∧
      id ∉ (publishScheduledPosts eb nb
        (publishScheduledPosts ea na s).storage).attemptedIds := by
  obtain ⟨hwf1, hcampeq1, hattnd1, _, hpubposted1, _, _, _, _, _⟩ :=
    publishScheduledPosts_inv ea na s hwf hcamps
  have hcamps1 : ((publishScheduledPosts ea na s).storage.campaigns.map Campaign.id).Nodup := by
    rw [hcampeq1]
    exact hcamps
  obtain ⟨_, _, _, _, _, _, _, hatts02, _, _⟩ :=
    publishScheduledPosts_inv eb nb (publishScheduledPosts ea na s).storage hwf1 hcamps1
  refine ⟨hattnd1, ?_⟩
  intro id hid
  refine ⟨hpubposted1 id hid, ?_⟩
  intro hmem
  have hsch := hatts02 id hmem
  rw [hpubposted1 id hid] at hsch
  exact absurd (Option.some.inj hsch) (by decide)

/-- Witness for C9 at a concrete input: the succeeding transport
delivers post 7 in the first pass; the hypotheses hold and the id is
published there. -/
theorem publish_executor_idempotent_witness :
    WFPosts s7 ∧ (s7.campaigns.map Campaign.id).Nodup ∧
    7 ∈ (publishScheduledPosts envBase slot1 s7).publishedIds ∧
    ((publishScheduledPosts envBase slot1 s7).attemptedIds.Nodup ∧
    ∀ id ∈ (publishScheduledPosts envBase slot1 s7).publishedIds,
      statusOf (publishScheduledPosts envBase slot1 s7).storage id = some "posted" ∧
      id ∉ (publishScheduledPosts envBase slot1
        (publishScheduledPosts envBase slot1 s7).storage).attemptedIds) :=
  ⟨by unfold WFPosts; decide, by decide, by decide,
    publish_executor_idempotent envBase envBase slot1 slot1 s7 (by unfold WFPosts; decide)
      (by decide)⟩

/-! ## C7 -/

/-- C7: a scheduler cycle never creates or promotes a post of a manual
(autoPublish = false) campaign to scheduled: every scheduled post of
that campaign after the cycle was already scheduled before it.  And
enrichment finishes a stored post in status scheduled exactly when the
campaign is active and auto-publishing and the caller supplied an
explicit target; on success it finishes in draft otherwise. -/
theorem manual_campaign_never_scheduled (env : Env) (now : Int) (st : SchedState)
    (s : Storage) (cstar : Campaign)
    (hwf : WFPosts s) (hcamps : (s.campaigns.map Campaign.id).Nodup)
    (hinv : InvAll s) (hmem : cstar ∈ s.campaigns) (hman : cstar.autoPublish = false) :
    NoNewSched s (runSchedulerCycle env now st s).snd cstar.id ∧
    (∀ (e2 : Env) (post : Post) (c : Campaign) (target : Option Int) (s2 : Storage),
      (s2.getPost post.id).isSome = true →
      (processNewPost e2 post c target s2).snd = Except.ok () →
      statusOf (processNewPost e2 post c target s2).fst post.id =
        some (if c.isActive && c.autoPublish && target.isSome
          then "scheduled" else "draft")) := by
  constructor
  · have hL : ∀ c2 ∈ s.getActiveCampaigns, c2.autoPublish = true → c2.id ≠ cstar.id := by
      intro c2 hc2 hauto he
      have hc2mem : c2 ∈ s.campaigns := (List.filter_sublist _).subset hc2
      have hceq : c2 = cstar := List.inj_on_of_nodup_map hcamps hc2mem hmem he
      rw [hceq, hman] at hauto
      exact absurd hauto (by decide)
    exact (cycle_preserves env now st s cstar.id hwf hinv hcamps hL).2.2.1
  · intro e2 post c target s2 hsome hok
    have h := pnp_ok_status e2 post c target s2 hsome hok
    rw [h]
    unfold pnpTargetDecision
    by_cases hc : (c.isActive && c.autoPublish && target.isSome) = true
    · rw [if_pos hc, if_pos hc]
    · rw [if_neg hc, if_neg hc]

/-- Witness for C7 at concrete inputs: the manual campaign alone in
storage, with a full scheduler cycle. -/
theorem manual_campaign_never_scheduled_witness :
    WFPosts sM ∧ (sM.campaigns.map Campaign.id).Nodup ∧ InvAll sM ∧
    campaignM ∈ sM.campaigns ∧ campaignM.autoPublish = false ∧
    (NoNewSched sM (runSchedulerCycle envBase now1 st9 sM).snd campaignM.id ∧
    (∀ (e2 : Env) (post : Post) (c : Campaign) (target : Option Int) (s2 : Storage),
      (s2.getPost post.id).isSome = true →
      (processNewPost e2 post c target s2).snd = Except.ok () →
      statusOf (processNewPost e2 post c target s2).fst post.id =
        some (if c.isActive && c.autoPublish && target.isSome
          then "scheduled" else "draft"))) :=
  ⟨by unfold WFPosts; decide, by decide,
   fun p hp => absurd hp (List.not_mem_nil p),
   by decide, rfl,
   manual_campaign_never_scheduled envBase now1 st9 sM campaignM
     (by unfold WFPosts; decide) (by decide)
     (fun p hp => absurd hp (List.not_mem_nil p)) (by decide) rfl⟩

/-! ## C3 -/

/-- C3 counterexample: a successful publish leaves scheduledFor set on
the now-posted post, so scheduledFor non-null does not imply status
scheduled: the source's success update writes status and postedAt but
never clears scheduledFor. -/
theorem publish_keeps_scheduledFor :
    ((publishPost envBase slot1 post7 campaign1 s7).storage.posts.map
      (fun q => (q.status, q.scheduledFor, q.postedAt))) =
      [("posted", some slot1, some slot1)] := by
  decide

/-- C3 (amended): the direction scheduledFor-set implies scheduled fails
(see the counterexample), but the remaining equivalences hold and are
preserved by every operation of the scheduling core: for every post,
scheduled implies scheduledFor non-null and posted holds iff postedAt is
non-null, and this invariant is preserved by a full scheduler cycle
(draft promotion, enrichment, publish and cleanup), by the unschedule
patch of a scheduled post back to draft, and by a direct publish of a
scheduled post. -/
theorem lifecycle_status_invariant (env : Env) (now : Int) (st : SchedState) (s : Storage)
    (hwf : WFPosts s) (hcamps : (s.campaigns.map Campaign.id).Nodup) (hinv : InvAll s) :
    InvAll (runSchedulerCycle env now st s).snd ∧
    (∀ (s2 : Storage) (pid : Nat), InvAll s2 →
      (∀ q ∈ s2.posts, q.id = pid → q.status = "scheduled") →
      InvAll (patchPost s2 pid { status := some "draft" }).fst) ∧
    (∀ (e2 : Env) (n2 : Int) (post : Post) (c : Campaign) (s2 : Storage),
      InvAll s2 → (∀ q ∈ s2.posts, q.id = post.id → q.status = "scheduled") →
      InvAll (publishPost e2 n2 post c s2).storage) := by
  refine ⟨?_, ?_, ?_⟩
  · have hL : ∀ c2 ∈ s.getActiveCampaigns, c2.autoPublish = true →
        c2.id ≠ (s.campaigns.map Campaign.id).sum + 1 := by
      intro c2 hc2 _ he
      have hmem : c2.id ∈ s.campaigns.map Campaign.id :=
        List.mem_map_of_mem Campaign.id ((List.filter_sublist _).subset hc2)
      have hle : c2.id ≤ (s.campaigns.map Campaign.id).sum :=
        List.single_le_sum (fun _ _ => Nat.zero_le _) _ hmem
      omega
    exact (cycle_preserves env now st s ((s.campaigns.map Campaign.id).sum + 1)
      hwf hinv hcamps hL).2.1
  · intro s2 pid hinv2 hsched
    unfold patchPost
    dsimp only
    split
    · exact hinv2
    · apply invall_of_posts_eq (posts_createLog _ _)
      apply invall_updatePost hinv2
      intro q hq hqid
      have hqst : q.status = "scheduled" := hsched q hq hqid
      have hqpa : q.postedAt = none := by
        by_cases hpa : q.postedAt = none
        · exact hpa
        · have hpost := (hinv2 q hq).2.mpr hpa
          rw [hqst] at hpost
          exact absurd hpost (by decide)
      have hst : (applyPostUpdate q { status := some "draft" }).status = "draft" := rfl
      have hpa2 : (applyPostUpdate q { status := some "draft" }).postedAt = q.postedAt := rfl
      refine ⟨?_, ?_, ?_⟩
      · intro habs
        rw [hst] at habs
        exact absurd habs (by decide)
      · intro habs
        rw [hst] at habs
        exact absurd habs (by decide)
      · intro habs
        exfalso
        apply habs
        rw [hpa2]
        exact hqpa
  · intro e2 n2 post c s2 hinv2 hsched
    exact publishPost_invall e2 n2 post c s2 hinv2 hsched

/-- Witness for the amended C3 theorem at concrete inputs: the storage
holding the scheduled post7. -/
theorem lifecycle_status_invariant_witness :
    WFPosts s7 ∧ (s7.campaigns.map Campaign.id).Nodup ∧ InvAll s7 ∧
    (InvAll (runSchedulerCycle envBase now1 st9 s7).snd ∧
    (∀ (s2 : Storage) (pid : Nat), InvAll s2 →
      (∀ q ∈ s2.posts, q.id = pid → q.status = "scheduled") →
      InvAll (patchPost s2 pid { status := some "draft" }).fst) ∧
    (∀ (e2 : Env) (n2 : Int) (post : Post) (c : Campaign) (s2 : Storage),
      InvAll s2 → (∀ q ∈ s2.posts, q.id = post.id → q.status = "scheduled") →
      InvAll (publishPost e2 n2 post c s2).storage)) :=
  ⟨by unfold WFPosts; decide, by decide,
   fun p hp => by
     rw [List.mem_singleton.mp hp]
     unfold StatusInv
     decide,
   lifecycle_status_invariant envBase now1 st9 s7
     (by unfold WFPosts; decide) (by decide)
     (fun p hp => by
       rw [List.mem_singleton.mp hp]
       unfold StatusInv
       decide)⟩

end SocialFlow
